import Mathlib

/-
Shallow embedding of the backtest engine in src/backtest.py.

Conventions of the embedding:
* Python floats are modelled as exact rationals (ℚ); the two quantities whose
  computation is genuinely irrational (compound annual growth, Sharpe ratio)
  are modelled separately over ℝ.
* Python dicts that preserve insertion order (`positions`, `signals`,
  `price_data`) are modelled as association lists in insertion order.
* Division by zero: Python raises ZeroDivisionError where ℚ yields 0; the
  theorems that depend on a quotient carry positivity hypotheses restricting
  them to states the Python code can actually reach without aborting.
-/

namespace CVBacktest

/-- Calendar date, mirroring the `datetime.datetime` values (at midnight) that
`backtest.py` uses as trading dates and price-series index entries. -/
structure Date where
  y : Nat
  m : Nat
  d : Nat
deriving DecidableEq, Repr

/-- Days since 1970-01-01 (the civil-calendar day-count algorithm); this is the
value underlying Python's date subtraction `(a - b).days` and `weekday()`. -/
def Date.epochDays (dt : Date) : Int :=
  let yAdj : Int := if dt.m ≤ 2 then (dt.y : Int) - 1 else (dt.y : Int)
  let era : Int := (if 0 ≤ yAdj then yAdj else yAdj - 399) / 400
  let yoe : Int := yAdj - era * 400
  let mp : Int := if 2 < dt.m then (dt.m : Int) - 3 else (dt.m : Int) + 9
  let doy : Int := (153 * mp + 2) / 5 + (dt.d : Int) - 1
  let doe : Int := yoe * 365 + yoe / 4 - yoe / 100 + doy
  era * 146097 + doe - 719468

/-- Python's `date.weekday()`: Monday = 0, ..., Sunday = 6.
1970-01-01 was a Thursday (weekday 3). -/
def Date.weekday (dt : Date) : Int :=
  (dt.epochDays + 3) % 7

def isLeapYear (y : Nat) : Bool :=
  (y % 4 == 0 && y % 100 != 0) || y % 400 == 0

def daysInMonth (y m : Nat) : Nat :=
  if m = 2 then (if isLeapYear y then 29 else 28)
  else if m = 4 ∨ m = 6 ∨ m = 9 ∨ m = 11 then 30
  else 31

def pad2 (n : Nat) : String :=
  if n < 10 then "0" ++ toString n else toString n

def pad4 (n : Nat) : String :=
  if n < 10 then "000" ++ toString n
  else if n < 100 then "00" ++ toString n
  else if n < 1000 then "0" ++ toString n
  else toString n

/-- Python's `strftime(%Y-%m-%d)`: zero-padded ISO date string. -/
def formatDate (dt : Date) : String :=
  pad4 dt.y ++ "-" ++ pad2 dt.m ++ "-" ++ pad2 dt.d

/-- Split a character list at every dash, the separator of the %Y-%m-%d
format (structural-recursion equivalent of splitting the string on a dash). -/
def splitDash : List Char → List (List Char)
  | [] => [[]]
  | c :: rest =>
    let r := splitDash rest
    if c = '-' then [] :: r
    else
      match r with
      | [] => [[c]]
      | g :: gs => (c :: g) :: gs

def allDigits (cs : List Char) : Bool :=
  0 < cs.length && cs.all (fun c => c.isDigit)

def natOfDigits (cs : List Char) : Nat :=
  cs.foldl (fun a c => a * 10 + (c.toNat - 48)) 0

/-- The %m field of CPython strptime, whose regular expression is
1[0-2] or 0[1-9] or [1-9]: exactly the digit strings of length one or two
whose value is between 1 and 12. -/
def monthField (cs : List Char) : Option Nat :=
  if allDigits cs && cs.length ≤ 2 then
    let v := natOfDigits cs
    if 1 ≤ v ∧ v ≤ 12 then some v else none
  else none

/-- The %d field of CPython strptime, whose regular expression is
3[01] or [12] digit or 0[1-9] or [1-9] or space-[1-9]: the digit strings of
length one or two with value between 1 and 31, plus a space followed by a
single non-zero digit (the space-padded day %d accepts). -/
def dayField (cs : List Char) : Option Nat :=
  match cs with
  | [' ', c] => if '1' ≤ c ∧ c ≤ '9' then some (c.toNat - 48) else none
  | _ =>
    if allDigits cs && cs.length ≤ 2 then
      let v := natOfDigits cs
      if 1 ≤ v ∧ v ≤ 31 then some v else none
    else none

/-- Python's `datetime.strptime(s, %Y-%m-%d)`: the %Y field requires exactly
four digits, %m one or two digits valued 1..12, %d one or two digits valued
1..31 or a space-padded single digit, the whole string consumed; the
resulting date is then validated by the datetime constructor (year at least
1, day within the month). `none` models the `ValueError` that
`_get_all_trading_dates` swallows for signal keys. -/
def parseDate (s : String) : Option Date :=
  match splitDash s.toList with
  | [ys, ms, ds] =>
    if allDigits ys && ys.length = 4 then
      match monthField ms, dayField ds with
      | some m, some d =>
        let y := natOfDigits ys
        if 1 ≤ y ∧ d ≤ daysInMonth y m then some ⟨y, m, d⟩ else none
      | _, _ => none
    else none
  | _ => none

/-- One entry of a signal list: the dict `{code, name}` (name optional,
`signal.get(name, 未知)`). -/
structure Sig where
  code : String
  name : Option String
deriving DecidableEq, Repr

/-- The signals dict `{date_str: [sig, ...]}` in insertion order. -/
abbrev Signals := List (String × List Sig)

/-- One instrument's price series: the date-indexed frame, of which the engine
only ever reads the index and the `close` column. -/
abbrev PriceSeries := List (Date × ℚ)

/-- The `price_data` dict `{code: DataFrame-or-None}`. -/
abbrev PriceData := List (String × Option PriceSeries)

/-- Combined guard and lookup used throughout `backtest.py`:
`code in price_data and price_data[code] is not None` and
`current_date in df.index`, returning `df.loc[current_date, close]`. -/
def closeOn (price_data : PriceData) (code : String) (day : Date) : Option ℚ :=
  match price_data.find? (fun p => p.1 == code) with
  | some (_, some series) => (series.find? (fun b => b.1 == day)).map (fun b => b.2)
  | _ => none

def signalsFor (signals : Signals) (date_str : String) : Option (List Sig) :=
  (signals.find? (fun p => p.1 == date_str)).map (fun p => p.2)

/-- One open position: the dict stored in `positions[code]`. -/
structure Position where
  shares : Int
  avg_price : ℚ
  max_price : ℚ
  buy_date : Date
  name : String
deriving DecidableEq, Repr

/-- The `positions` dict in insertion order, keyed by instrument code. -/
abbrev Positions := List (String × Position)

def heldIn (positions : Positions) (code : String) : Bool :=
  positions.any (fun p => p.1 == code)

inductive TAction where
  | buy
  | sell
deriving DecidableEq, Repr

/-- The free-form `reason` strings of trade records, with the stop-loss
drawdown that the Python string interpolates kept as a payload. -/
inductive TReason where
  | stopHit (drawdown : ℚ)
  | pickSignal
  | weekly
deriving DecidableEq, Repr

/-- One executed trade: the dict appended to `trade_history`. SELL records
carry no `name` key, which is modelled by `name = none`. -/
structure Trade where
  date : String
  code : String
  name : Option String
  action : TAction
  reason : TReason
  price : ℚ
  shares : Int
  amount : ℚ
  commission : ℚ
  pnl : ℚ
  pnl_pct : ℚ
  holding_days : Int
deriving DecidableEq, Repr

/-- The engine configuration captured by `BacktestEngine.__init__`. -/
structure Config where
  initial_capital : ℚ
  stop_loss_pct : ℚ
  commission_rate : ℚ
  rebalance_weekly : Bool
  rebalance_day : Int
deriving DecidableEq, Repr

/-- Error channel of the engine. `configurationError` and `emptyHorizon` are
the typed errors named by the specification; `indexOutOfRange` and
`valueError` are the Python exceptions the source can actually raise. -/
inductive BTError where
  | configurationError
  | emptyHorizon
  | indexOutOfRange
  | valueError
deriving DecidableEq, Repr

/-- The constructor `BacktestEngine.__init__`: it only stores the parameters
and performs no validation, hence it never returns an error. -/
def BacktestEngine.init (initial_capital stop_loss_pct commission_rate : ℚ)
    (rebalance_weekly : Bool) (rebalance_day : Int) : Except BTError Config :=
  .ok ⟨initial_capital, stop_loss_pct, commission_rate, rebalance_weekly, rebalance_day⟩

/-- Collect a date into the accumulator unless already present: the Python
set `all_dates` of lines 125-139, in first-occurrence order (the order is
irrelevant because the set is sorted afterwards). -/
def insertUnique (acc : List Date) (x : Date) : List Date :=
  if x ∈ acc then acc else acc ++ [x]

def dedupDates (l : List Date) : List Date :=
  l.foldl insertUnique []

/-- Insert a date into a chronologically sorted list, keeping it sorted. -/
def insertByDate (x : Date) : List Date → List Date
  | [] => [x]
  | y :: rest =>
    if x.epochDays ≤ y.epochDays then x :: y :: rest else y :: insertByDate x rest

/-- Ascending chronological sort (insertion sort), modelling Python's
`sorted` over datetime values on line 142. -/
def sortDates : List Date → List Date
  | [] => []
  | x :: rest => insertByDate x (sortDates rest)

/-- The signal-key half of the date collection (lines 128-133): a key that
parses contributes its date, a key that does not parse is skipped. -/
def signalDatesStep (acc : List Date) (kv : String × List Sig) : List Date :=
  match parseDate kv.1 with
  | some dt => acc ++ [dt]
  | none => acc

/-- The price-data half of the date collection (lines 136-139): every date of
every present, non-empty series is added. -/
def priceDatesStep (acc : List Date) (kv : String × Option PriceSeries) : List Date :=
  match kv.2 with
  | some series => if series.isEmpty then acc else acc ++ series.map (fun b => b.1)
  | none => acc

/-- The method `_get_all_trading_dates` (backtest.py lines 123-153): union of
the parseable signal keys and every date of every non-empty price series,
sorted ascending, then filtered by the optional bounds. An unparseable bound
string raises ValueError in Python, modelled by the error branch. -/
def _get_all_trading_dates (signals : Signals) (price_data : PriceData)
    (start_date end_date : Option String) : Except BTError (List Date) :=
  let fromSignals : List Date := signals.foldl signalDatesStep []
  let fromPrices : List Date := price_data.foldl priceDatesStep []
  let base : List Date :=
    sortDates (dedupDates (fromSignals ++ fromPrices))
  match start_date with
  | none =>
    match end_date with
    | none => .ok base
    | some es =>
      match parseDate es with
      | none => .error .valueError
      | some edt => .ok (base.filter (fun dt => dt.epochDays ≤ edt.epochDays))
  | some ss =>
    match parseDate ss with
    | none => .error .valueError
    | some sdt =>
      let afterStart := base.filter (fun dt => sdt.epochDays ≤ dt.epochDays)
      match end_date with
      | none => .ok afterStart
      | some es =>
        match parseDate es with
        | none => .error .valueError
        | some edt => .ok (afterStart.filter (fun dt => dt.epochDays ≤ edt.epochDays))

/-- The method `_update_positions_high` (lines 155-164): raise each held
position's high-water mark to today's close when a bar exists and the close
exceeds it. -/
def _update_positions_high (positions : Positions) (price_data : PriceData)
    (current_date : Date) : Positions :=
  positions.map (fun cp =>
    match closeOn price_data cp.1 current_date with
    | some current_price =>
      if cp.2.max_price < current_price then
        (cp.1, { cp.2 with max_price := current_price })
      else cp
    | none => cp)

/-- Whether the stop-loss rule fires for one position on `current_date`
(lines 174-182): a bar exists and the drawdown from the high-water mark
reaches `stop_loss_pct`. -/
def slFires (cfg : Config) (price_data : PriceData) (current_date : Date)
    (cp : String × Position) : Bool :=
  match closeOn price_data cp.1 current_date with
  | some current_price =>
    decide (cfg.stop_loss_pct ≤ (cp.2.max_price - current_price) / cp.2.max_price)
  | none => false

/-- Net sale proceeds credited to capital when a position is liquidated at
close `price` (lines 183-189 and 317-323): gross minus commission. -/
def sellNet (cfg : Config) (price : ℚ) (shares : Int) : ℚ :=
  price * (shares : ℚ) - price * (shares : ℚ) * cfg.commission_rate

/-- The SELL trade record built by `_check_stop_loss` (lines 198-211). -/
def slTrade (cfg : Config) (price_data : PriceData) (current_date : Date)
    (date_str : String) (cp : String × Position) : Trade :=
  let current_price := (closeOn price_data cp.1 current_date).getD 0
  let pos := cp.2
  let drawdown := (pos.max_price - current_price) / pos.max_price
  let sell_value := current_price * (pos.shares : ℚ)
  let commission := sell_value * cfg.commission_rate
  let net_proceeds := sell_value - commission
  let cost := pos.avg_price * (pos.shares : ℚ)
  let buy_commission := cost * cfg.commission_rate
  let total_cost := cost + buy_commission
  let pnl := net_proceeds - total_cost
  let pnl_pct := if 0 < total_cost then pnl / total_cost else 0
  { date := date_str, code := cp.1, name := none, action := .sell,
    reason := .stopHit drawdown, price := current_price, shares := pos.shares,
    amount := sell_value, commission := commission, pnl := pnl,
    pnl_pct := pnl_pct, holding_days := current_date.epochDays - pos.buy_date.epochDays }

/-- One iteration of the `_check_stop_loss` loop (lines 171-214), accumulating
updated capital, the SELL trades and the codes to remove. -/
def slStep (cfg : Config) (price_data : PriceData) (current_date : Date)
    (date_str : String) (acc : ℚ × List Trade × List String)
    (cp : String × Position) : ℚ × List Trade × List String :=
  if slFires cfg price_data current_date cp then
    (acc.1 + sellNet cfg ((closeOn price_data cp.1 current_date).getD 0) cp.2.shares,
     acc.2.1 ++ [slTrade cfg price_data current_date date_str cp],
     acc.2.2 ++ [cp.1])
  else acc

/-- The method `_check_stop_loss` (lines 166-220): iterate over the held
positions collecting liquidations, then delete the liquidated codes. -/
def _check_stop_loss (cfg : Config) (positions : Positions) (price_data : PriceData)
    (capital : ℚ) (current_date : Date) (date_str : String) :
    Positions × ℚ × List Trade :=
  let acc := positions.foldl (slStep cfg price_data current_date date_str) (capital, [], [])
  (positions.filter (fun cp => ¬ acc.2.2.contains cp.1), acc.1, acc.2.1)

/-- One iteration of the `_execute_buy_signals` loop (lines 226-292), with
`n_signals` the length of the whole signal list of the day. The Python float
floor-division `int(buy_value // (buy_price * 100)) * 100` is `⌊_⌋ * 100`. -/
def buyStep (cfg : Config) (price_data : PriceData) (current_date : Date)
    (date_str : String) (n_signals : Nat) (st : Positions × ℚ × List Trade)
    (signal : Sig) : Positions × ℚ × List Trade :=
  let code := signal.code
  let name := signal.name.getD "未知"
  if heldIn st.1 code then st
  else
    match closeOn price_data code current_date with
    | none => st
    | some buy_price =>
      let capital := st.2.1
      let allocation : ℚ := if 0 < n_signals then capital / (n_signals : ℚ) else 0
      let buy_value := min allocation (capital * 0.2)
      let shares : Int := ⌊buy_value / (buy_price * 100)⌋ * 100
      if shares ≤ 0 then st
      else
        let cost := buy_price * (shares : ℚ)
        let commission := cost * cfg.commission_rate
        let total_cost := cost + commission
        if capital < total_cost then st
        else
          let trade : Trade :=
            { date := date_str, code := code, name := some name, action := .buy,
              reason := .pickSignal, price := buy_price, shares := shares,
              amount := cost, commission := commission, pnl := 0, pnl_pct := 0,
              holding_days := 0 }
          (st.1 ++ [(code, ⟨shares, buy_price, buy_price, current_date, name⟩)],
           capital - total_cost, st.2.2 ++ [trade])

/-- The method `_execute_buy_signals` (lines 222-294). Note that `n_signals`
is the length of the full `buy_signals` list, including entries that are
already held or lack price data. -/
def _execute_buy_signals (cfg : Config) (buy_signals : List Sig)
    (positions : Positions) (price_data : PriceData) (capital : ℚ)
    (current_date : Date) (date_str : String) : Positions × ℚ × List Trade :=
  buy_signals.foldl (buyStep cfg price_data current_date date_str buy_signals.length)
    (positions, capital, [])

/-- The method `_is_rebalance_day` (lines 296-299). -/
def _is_rebalance_day (cfg : Config) (date : Date) : Bool :=
  date.weekday == cfg.rebalance_day

/-- The SELL trade record built by the rebalance liquidation (lines 332-345);
identical accounting to the stop-loss sale, tagged with the weekly reason. -/
def rebTrade (cfg : Config) (price_data : PriceData) (current_date : Date)
    (date_str : String) (cp : String × Position) : Trade :=
  let current_price := (closeOn price_data cp.1 current_date).getD 0
  let pos := cp.2
  let sell_value := current_price * (pos.shares : ℚ)
  let commission := sell_value * cfg.commission_rate
  let net_proceeds := sell_value - commission
  let cost := pos.avg_price * (pos.shares : ℚ)
  let buy_commission := cost * cfg.commission_rate
  let total_cost := cost + buy_commission
  let pnl := net_proceeds - total_cost
  let pnl_pct := if 0 < total_cost then pnl / total_cost else 0
  { date := date_str, code := cp.1, name := none, action := .sell,
    reason := .weekly, price := current_price, shares := pos.shares,
    amount := sell_value, commission := commission, pnl := pnl,
    pnl_pct := pnl_pct, holding_days := current_date.epochDays - pos.buy_date.epochDays }

/-- One iteration of the rebalance sell loop (lines 311-346): positions with
a price bar today are sold; positions without one produce nothing. -/
def rebSellStep (cfg : Config) (price_data : PriceData) (current_date : Date)
    (date_str : String) (acc : ℚ × List Trade) (cp : String × Position) :
    ℚ × List Trade :=
  match closeOn price_data cp.1 current_date with
  | some current_price =>
    (acc.1 + sellNet cfg current_price cp.2.shares,
     acc.2 ++ [rebTrade cfg price_data current_date date_str cp])
  | none => acc

/-- The method `_execute_weekly_rebalance` (lines 301-359): sell every held
position that has a bar today, then rebind the positions dict to a fresh
empty dict (line 349) — including positions that could not be sold — then
re-enter from today's signal list. -/
def _execute_weekly_rebalance (cfg : Config) (positions : Positions)
    (price_data : PriceData) (capital : ℚ) (current_date : Date)
    (date_str : String) (today_signals : List Sig) : Positions × ℚ × List Trade :=
  if positions.isEmpty then (positions, capital, [])
  else
    let acc := positions.foldl (rebSellStep cfg price_data current_date date_str) (capital, [])
    let cleared : Positions := []
    if today_signals.isEmpty then (cleared, acc.1, acc.2)
    else
      let b := _execute_buy_signals cfg today_signals cleared price_data acc.1 current_date date_str
      (b.1, b.2.1, acc.2 ++ b.2.2)

/-- The method `_calculate_portfolio_value` (lines 361-373): cash plus the
marked-to-market value of exactly those positions with a bar today. -/
def _calculate_portfolio_value (positions : Positions) (price_data : PriceData)
    (capital : ℚ) (current_date : Date) : ℚ :=
  positions.foldl (fun acc cp =>
    match closeOn price_data cp.1 current_date with
    | some current_price => acc + current_price * (cp.2.shares : ℚ)
    | none => acc) capital

/-- One row of `portfolio_history` (lines 378-384); `ret` is the dict key
named return, a reserved word in Lean. -/
structure DailyRecord where
  date : String
  cash : ℚ
  positions_count : Nat
  portfolio_value : ℚ
  ret : ℚ
deriving DecidableEq, Repr

/-- The mutable per-run engine state threaded through the date loop. -/
structure EngineState where
  positions : Positions
  capital : ℚ
  portfolio_history : List DailyRecord
  trade_history : List Trade
deriving DecidableEq, Repr

/-- One iteration of the date loop in `run_backtest` (lines 81-115): steps
1 high-water update, 2 stop-loss, 3 buy signals, 4 weekly rebalance,
5 valuation, 6 record, in exactly that order. -/
def runDay (cfg : Config) (signals : Signals) (price_data : PriceData)
    (st : EngineState) (current_date : Date) : EngineState :=
  let date_str := formatDate current_date
  let positions1 := _update_positions_high st.positions price_data current_date
  let r2 := _check_stop_loss cfg positions1 price_data st.capital current_date date_str
  let r3 : Positions × ℚ × List Trade :=
    match signalsFor signals date_str with
    | some buy_signals =>
      let b := _execute_buy_signals cfg buy_signals r2.1 price_data r2.2.1 current_date date_str
      (b.1, b.2.1, r2.2.2 ++ b.2.2)
    | none => r2
  let r4 : Positions × ℚ × List Trade :=
    if cfg.rebalance_weekly && _is_rebalance_day cfg current_date then
      let w := _execute_weekly_rebalance cfg r3.1 price_data r3.2.1 current_date date_str
        ((signalsFor signals date_str).getD [])
      (w.1, w.2.1, r3.2.2 ++ w.2.2)
    else r3
  let portfolio_value := _calculate_portfolio_value r4.1 price_data r4.2.1 current_date
  let todayRec : DailyRecord :=
    ⟨date_str, r4.2.1, r4.1.length, portfolio_value,
     (portfolio_value / cfg.initial_capital - 1) * 100⟩
  { positions := r4.1, capital := r4.2.1,
    portfolio_history := st.portfolio_history ++ [todayRec],
    trade_history := st.trade_history ++ r4.2.2 }

/-- Running maximum of a value series seeded with `m`: the tail of the pandas
`cummax` column. -/
def cummaxFrom (m : ℚ) : List ℚ → List ℚ
  | [] => []
  | v :: rest => max m v :: cummaxFrom (max m v) rest

/-- The pandas `cummax` column over `portfolio_value` (line 412). -/
def cummaxes (l : List ℚ) : List ℚ :=
  match l with
  | [] => []
  | v :: _ => cummaxFrom v l

/-- The pandas `pct_change` column (line 417) with its leading NaN dropped,
as pandas `mean` and `std` skip it. -/
def dailyReturns : List ℚ → List ℚ
  | [] => []
  | [_] => []
  | a :: b :: rest => (b / a - 1) :: dailyReturns (b :: rest)

/-- Mean of a rational list; the pandas mean of an empty column is NaN, an
unreachable case here because callers guard on length. -/
def meanQ (l : List ℚ) : ℚ :=
  if 0 < l.length then l.sum / (l.length : ℚ) else 0

/-- Sum of squared deviations from the mean: the numerator of the pandas
sample variance (ddof = 1). It is zero exactly when the sample standard
deviation of line 419 is zero, and the sample size being below 2 is exactly
when that standard deviation is NaN; both make the guard on line 420 false. -/
def varNumQ (l : List ℚ) : ℚ :=
  (l.map (fun r => (r - meanQ l) ^ 2)).sum

/-- The trade statistics block of `_calculate_results` (lines 423-440):
total trade count, win rate, average winning and losing pnl percentage, and
average holding days, all zero when there are no trades or no SELL trades. -/
def _trade_stats (trades : List Trade) : Nat × ℚ × ℚ × ℚ × ℚ :=
  match trades with
  | [] => (0, 0, 0, 0, 0)
  | _ =>
    let buy_trades := trades.filter (fun t => t.action == TAction.buy)
    let sell_trades := trades.filter (fun t => t.action == TAction.sell)
    let win_trades := sell_trades.filter (fun t => decide (0 < t.pnl))
    let loss_trades := sell_trades.filter (fun t => decide (t.pnl ≤ 0))
    let win_rate := if 0 < sell_trades.length then
        (win_trades.length : ℚ) / (sell_trades.length : ℚ) * 100 else 0
    let avg_win := if 0 < win_trades.length then meanQ (win_trades.map (fun t => t.pnl_pct)) else 0
    let avg_loss := if 0 < loss_trades.length then meanQ (loss_trades.map (fun t => t.pnl_pct)) else 0
    let avg_holding := if 0 < sell_trades.length then
        meanQ (sell_trades.map (fun t => (t.holding_days : ℚ))) else 0
    (buy_trades.length + sell_trades.length, win_rate, avg_win, avg_loss, avg_holding)

/-- The rational-valued fields of the results dict built by
`_calculate_results` (lines 390-457); the two real-valued fields are the
separate functions `annual_return_pct_of` and `sharpe_of` below. -/
structure ResultsQ where
  initial_capital : ℚ
  final_value : ℚ
  total_return_pct : ℚ
  max_drawdown_pct : ℚ
  total_trades : Nat
  win_rate_pct : ℚ
  avg_win_pct : ℚ
  avg_loss_pct : ℚ
  avg_holding_days : ℚ
deriving DecidableEq, Repr

/-- The method `_calculate_results` (lines 390-457) restricted to its
rational-valued outputs; `none` models the early return on an empty
`portfolio_history` that leaves `self.results` untouched. -/
def _calculate_results_q (cfg : Config) (portfolio_history : List DailyRecord)
    (trade_history : List Trade) : Option ResultsQ :=
  match portfolio_history with
  | [] => none
  | _ =>
    let values := portfolio_history.map (fun r => r.portfolio_value)
    let final_value := values.getLastD 0
    let total_return := (final_value / cfg.initial_capital - 1) * 100
    let cms := cummaxes values
    let dds := (values.zip cms).map (fun p => (p.1 - p.2) / p.2 * 100)
    let max_drawdown :=
      match dds with
      | [] => 0
      | x :: rest => rest.foldl min x
    let ts := _trade_stats trade_history
    some ⟨cfg.initial_capital, final_value, total_return, max_drawdown,
      ts.1, ts.2.1, ts.2.2.1, ts.2.2.2.1, ts.2.2.2.2⟩

/-- Elapsed calendar days between the first and last trading date
(line 407). -/
def elapsedDays (all_dates : List Date) : Int :=
  match all_dates with
  | [] => 0
  | d0 :: _ => (all_dates.getLastD d0).epochDays - d0.epochDays

/-- The annualized return of lines 407-409: compound growth over elapsed
years, reported as 0 when no time elapsed. Real-valued because of the
fractional power. -/
noncomputable def annual_return_pct_of (initial_capital final_value : ℚ) (days : Int) : ℝ :=
  let years : ℚ := (days : ℚ) / (365.25 : ℚ)
  if 0 < years then
    (((final_value / initial_capital : ℚ) : ℝ) ^ ((1 : ℝ) / ((years : ℚ) : ℝ)) - 1) * 100
  else 0

/-- The Sharpe ratio of lines 416-420. The pandas guard `std > 0` is false
both when the sample standard deviation is 0 (zero variance) and when it is
NaN (fewer than two daily returns), which is the decidable guard used here.
Real-valued because of the square roots. -/
noncomputable def sharpe_of (values : List ℚ) : ℝ :=
  let rets := dailyReturns values
  let n := rets.length
  let avg := meanQ rets
  if 2 ≤ n ∧ 0 < varNumQ rets then
    (((avg * 100 - 3 / 252 : ℚ) : ℝ) /
      (Real.sqrt ((varNumQ rets / ((n : ℚ) - 1) : ℚ) : ℝ) * 100)) * Real.sqrt 252
  else 0

/-- The output of one engine run: the recorded histories, the date universe,
and the rational-valued summary results. -/
structure RunOutput where
  portfolio_history : List DailyRecord
  trade_history : List Trade
  all_dates : List Date
  results : Option ResultsQ
deriving DecidableEq, Repr

/-- The method `run_backtest` (lines 45-121). On an empty trading-date
universe the f-string on line 78 evaluates `all_dates[0]` and raises
IndexError before the loop body ever runs, modelled by `.indexOutOfRange`. -/
def run_backtest (cfg : Config) (signals : Signals) (price_data : PriceData)
    (start_date end_date : Option String) : Except BTError RunOutput :=
  match _get_all_trading_dates signals price_data start_date end_date with
  | .error e => .error e
  | .ok all_dates =>
    match all_dates with
    | [] => .error .indexOutOfRange
    | _ =>
      let final := all_dates.foldl (runDay cfg signals price_data)
        ⟨[], cfg.initial_capital, [], []⟩
      .ok ⟨final.portfolio_history, final.trade_history, all_dates,
        _calculate_results_q cfg final.portfolio_history final.trade_history⟩

/-- Net cash effect of settling one trade: a SELL credits its net proceeds,
a BUY debits its total cost including commission. -/
def settlementDelta (t : Trade) : ℚ :=
  match t.action with
  | .sell => t.amount - t.commission
  | .buy => -(t.amount + t.commission)

/-- Every close recorded in the price store is non-negative. -/
def pricesNonneg (price_data : PriceData) : Prop :=
  ∀ code series, (code, some series) ∈ price_data → ∀ b ∈ series, 0 ≤ b.2

/-- Every held position has a non-negative share count. -/
def sharesNonneg (positions : Positions) : Prop :=
  ∀ cp ∈ positions, 0 ≤ cp.2.shares

/-- Whether a position has a price bar on the given date. -/
def hasBarOn (price_data : PriceData) (current_date : Date) (cp : String × Position) : Bool :=
  (closeOn price_data cp.1 current_date).isSome

/-- Modelled from the claim wording of C5: the last known close of an
instrument, i.e. the close at the latest series date at or before the day. -/
def lastKnownClose (price_data : PriceData) (code : String) (day : Date) : Option ℚ :=
  match price_data.find? (fun p => p.1 == code) with
  | some (_, some series) =>
    ((series.filter (fun b => b.1.epochDays ≤ day.epochDays)).foldl
      (fun acc b =>
        match acc with
        | none => some b
        | some a => if a.1.epochDays ≤ b.1.epochDays then some b else some a) none).map
      (fun b => b.2)
  | _ => none

/-- Modelled from the claim wording of C5: a valuation in which an open
position without a bar today contributes its shares at the last known close
carried forward, instead of contributing nothing. -/
def claimCarryValue (positions : Positions) (price_data : PriceData) (capital : ℚ)
    (day : Date) : ℚ :=
  positions.foldl (fun acc cp =>
    match closeOn price_data cp.1 day with
    | some px => acc + px * (cp.2.shares : ℚ)
    | none =>
      match lastKnownClose price_data cp.1 day with
      | some px => acc + px * (cp.2.shares : ℚ)
      | none => acc) capital

/-- Modelled from the claim wording of C3: the lot-rounded share count for a
candidate when the per-candidate allocation divides the available cash by the
number of remaining (not-yet-held) candidates, capped at 20 percent. -/
def claimSharesRemaining (cash price : ℚ) (nRemaining : Nat) : Int :=
  ⌊(min (cash / (nRemaining : ℚ)) (cash * (20 / 100))) / (price * 100)⌋ * 100

/-- The per-candidate entry rule in the amended wording of C3: skip a held
candidate or one without a bar; otherwise allocate cash divided by the day's
full candidate count, capped at 20 percent of current cash, lot-round to
hundreds, and skip — cash and ledger unchanged — when the rounded count is
zero or the total cost including commission exceeds current cash. -/
def buyStepSpec (cfg : Config) (price_data : PriceData) (current_date : Date)
    (date_str : String) (n : Nat) (st : Positions × ℚ × List Trade)
    (signal : Sig) : Positions × ℚ × List Trade :=
  let cash := st.2.1
  if heldIn st.1 signal.code then st
  else
    match closeOn price_data signal.code current_date with
    | none => st
    | some price =>
      let shares : Int :=
        ⌊(min (if 0 < n then cash / (n : ℚ) else 0) (cash * (20 / 100))) / (price * 100)⌋ * 100
      let gross := price * (shares : ℚ)
      let fee := gross * cfg.commission_rate
      if shares ≤ 0 ∨ cash < gross + fee then st
      else
        let nm := signal.name.getD "未知"
        (st.1 ++ [(signal.code, ⟨shares, price, price, current_date, nm⟩)],
         cash - (gross + fee),
         st.2.2 ++ [⟨date_str, signal.code, some nm, .buy, .pickSignal, price, shares,
           gross, fee, 0, 0, 0⟩])

/-- Configuration with weekly rebalance on Monday and zero commission. -/
def cfgRebalMon : Config := ⟨1000000, 1 / 25, 0, true, 0⟩

/-- Configuration with the source defaults and no rebalance. -/
def cfgPlain : Config := ⟨1000000, 1 / 25, 3 / 10000, false, 0⟩

/-- Configuration with a commission rate above 1 (the constructor accepts
any rate), used by the C9 counterexample. -/
def cfgHighFee : Config := ⟨1000000, 1 / 25, 4, false, 0⟩

/-- C1 scenario: one instrument signalled on Monday 2023-01-02 with a bar
that day only; the following Monday is in the horizon via its signal key but
the open position has no bar then. -/
def sigMonA : Signals := [("2023-01-02", [⟨"AAA", some "A"⟩]), ("2023-01-09", [])]

def pdMonA : PriceData := [("AAA", some [(⟨2023, 1, 2⟩, 10)])]

/-- C6 scenario: two consecutive Mondays, each carrying exactly one signal,
with price bars available for the signalled instruments. -/
def sigTwoMon : Signals :=
  [("2023-01-02", [⟨"AAA", some "A"⟩]), ("2023-01-09", [⟨"BBB", some "B"⟩])]

def pdTwoMon : PriceData :=
  [("AAA", some [(⟨2023, 1, 2⟩, 10), (⟨2023, 1, 9⟩, 10)]),
   ("BBB", some [(⟨2023, 1, 9⟩, 10)])]

/-- C2 counterexample input: a signal key that does not parse as a date and
an instrument whose price series is empty, so the trading-date universe is
empty. -/
def sigBadKey : Signals := [("garbage", [⟨"AAA", none⟩])]

def pdEmptySeries : PriceData := [("AAA", some [])]

/-- C9 counterexample scenario: a buy on 2023-01-02 at close 10 followed by
a 5 percent drop triggering the stop loss the next day. -/
def sigDropA : Signals := [("2023-01-02", [⟨"AAA", none⟩])]

def pdDropA : PriceData := [("AAA", some [(⟨2023, 1, 2⟩, 10), (⟨2023, 1, 3⟩, 19 / 2)])]

/-- C3 counterexample state: five instruments already held. -/
def heldFive : Positions :=
  [("A", ⟨100, 10, 10, ⟨2023, 1, 2⟩, "a"⟩), ("B", ⟨100, 10, 10, ⟨2023, 1, 2⟩, "b"⟩),
   ("C", ⟨100, 10, 10, ⟨2023, 1, 2⟩, "c"⟩), ("D", ⟨100, 10, 10, ⟨2023, 1, 2⟩, "d"⟩),
   ("E", ⟨100, 10, 10, ⟨2023, 1, 2⟩, "e"⟩)]

/-- C3 counterexample signal list: the five held instruments plus one new
candidate F. -/
def sigSix : List Sig :=
  [⟨"A", none⟩, ⟨"B", none⟩, ⟨"C", none⟩, ⟨"D", none⟩, ⟨"E", none⟩, ⟨"F", none⟩]

def pdOnlyF : PriceData := [("F", some [(⟨2023, 1, 9⟩, 10)])]

/-- C5 counterexample state: one position whose instrument has a bar only on
an earlier date. -/
def posStale : Positions := [("AAA", ⟨100, 10, 10, ⟨2023, 1, 2⟩, "A"⟩)]

def pdStale : PriceData := [("AAA", some [(⟨2023, 1, 2⟩, 10)])]

/-- C7 probe input: one parseable signal date (a Tuesday) with no candidates
and no price data, giving a one-day horizon for any configuration. -/
def sigProbeTue : Signals := [("2023-01-03", [])]

/-- C4 witness position entry: bought at 10, high-water mark 10. -/
def cpW4 : String × Position := ("AAA", ⟨20000, 10, 10, ⟨2023, 1, 2⟩, "A"⟩)

/-- C4 witness state: one position bought at 10 whose close drops to 9.5,
a 5 percent drawdown from its high-water mark. -/
def posW4 : Positions := [cpW4]

def pdW4 : PriceData := [("AAA", some [(⟨2023, 1, 3⟩, 19 / 2)])]

/-- The SELL trade the stop-loss rule emits in the C4 witness state. -/
def tW4 : Trade := slTrade cfgPlain pdW4 ⟨2023, 1, 3⟩ "2023-01-03" cpW4

/-- C10 witness price store: one instrument with one bar. -/
def pdOneBar : PriceData := [("AAA", some [(⟨2023, 1, 2⟩, 10)])]

/-- C9 witness scenario: a single buy at the source default commission. -/
def sigOneBuy : Signals := [("2023-01-02", [⟨"AAA", none⟩])]

def pdOneBuy : PriceData := [("AAA", some [(⟨2023, 1, 2⟩, 10)])]

/-- A configuration violating all four validity rules at once: non-positive
capital, threshold outside (0,1), negative commission, weekday outside 0-6. -/
def cfgInvalid : Config := ⟨-1, 2, -1, true, 9⟩

/-- A trade history containing one BUY and no SELL, for the C8 witness. -/
def tradeBuyOnly : List Trade :=
  [⟨"2023-01-02", "AAA", none, .buy, .pickSignal, 10, 100, 1000, 0, 0, 0, 0⟩]

/-- The full output of the C9 witness run: one BUY of 20000 shares at 10
costing 200000 plus 60 commission. -/
def outOneBuy : RunOutput :=
  { portfolio_history := [⟨"2023-01-02", 799940, 1, 999940, -3 / 500⟩],
    trade_history := [⟨"2023-01-02", "AAA", some "未知", .buy, .pickSignal, 10, 20000,
      200000, 60, 0, 0, 0⟩],
    all_dates := [⟨2023, 1, 2⟩],
    results := some ⟨1000000, 999940, -3 / 500, 0, 1, 0, 0, 0, 0⟩ }

set_option maxRecDepth 100000

theorem mem_insertUnique {acc : List Date} {x y : Date} :
    x ∈ insertUnique acc y ↔ x ∈ acc ∨ x = y := by
  unfold insertUnique
  split
  · rename_i hmem
    constructor
    · exact Or.inl
    · rintro (h | rfl)
      · exact h
      · exact hmem
  · simp [List.mem_append]

theorem mem_foldl_insertUnique :
    ∀ (l : List Date) (acc : List Date) (x : Date),
    x ∈ l.foldl insertUnique acc ↔ x ∈ acc ∨ x ∈ l := by
  intro l
  induction l with
  | nil => simp
  | cons y rest ih =>
    intro acc x
    rw [List.foldl_cons, ih, mem_insertUnique]
    simp [List.mem_cons, or_assoc]

theorem mem_dedupDates {l : List Date} {x : Date} : x ∈ dedupDates l ↔ x ∈ l := by
  unfold dedupDates
  rw [mem_foldl_insertUnique]
  simp

theorem mem_insertByDate {y : Date} :
    ∀ {l : List Date} {x : Date}, x ∈ insertByDate y l ↔ x = y ∨ x ∈ l := by
  intro l
  induction l with
  | nil => simp [insertByDate]
  | cons z rest ih =>
    intro x
    unfold insertByDate
    split
    · simp [List.mem_cons]
    · simp only [List.mem_cons, ih]
      tauto

theorem mem_sortDates : ∀ {l : List Date} {x : Date}, x ∈ sortDates l ↔ x ∈ l := by
  intro l
  induction l with
  | nil => simp [sortDates]
  | cons y rest ih =>
    intro x
    unfold sortDates
    rw [mem_insertByDate]
    simp only [List.mem_cons, ih]

theorem mem_foldl_priceDatesStep_of_mem :
    ∀ (l : PriceData) (acc : List Date) (x : Date),
    x ∈ acc → x ∈ l.foldl priceDatesStep acc := by
  intro l
  induction l with
  | nil => intro acc x h; simpa using h
  | cons kv rest ih =>
    intro acc x h
    rw [List.foldl_cons]
    apply ih
    unfold priceDatesStep
    rcases kv with ⟨c, s⟩
    match s with
    | some series =>
      simp only
      split
      · exact h
      · exact List.mem_append_left _ h
    | none => exact h

theorem mem_foldl_priceDatesStep :
    ∀ (l : PriceData) (acc : List Date) (code : String) (series : PriceSeries) (x : Date),
    (code, some series) ∈ l → x ∈ series.map Prod.fst →
    x ∈ l.foldl priceDatesStep acc := by
  intro l
  induction l with
  | nil => intro acc code series x h; simp at h
  | cons kv rest ih =>
    intro acc code series x hmem hx
    rw [List.foldl_cons]
    rcases List.mem_cons.mp hmem with heq | htail
    · subst heq
      apply mem_foldl_priceDatesStep_of_mem
      unfold priceDatesStep
      simp only
      have hne : series.isEmpty = false := by
        cases series with
        | nil => simp at hx
        | cons b bs => rfl
      rw [hne]
      simp only [Bool.false_eq_true, if_false]
      exact List.mem_append_right _ hx
    · exact ih (priceDatesStep acc kv) code series x htail hx

/-- C1: evaluation of the engine at the failing input. On rebalance Monday
2023-01-09 the open AAA position (20000 shares, cost basis 200000) has no
price bar: no trade at all is recorded that day, yet the position count
drops from 1 to 0 while cash stays at 800000 — the rebalance cleared the
position off the books without any sale proceeds, so the recorded portfolio
value falls from 1000000 to 800000 with no offsetting trade, violating
capital conservation. -/
theorem C1_rebalance_wipes_barless_position :
    (run_backtest cfgRebalMon sigMonA pdMonA none none).toOption.map
      (fun o =>
        (o.portfolio_history.map (fun r => (r.cash, r.positions_count, r.portfolio_value)),
         o.trade_history.map (fun t => (t.date, t.action)))) =
    some ([((800000 : ℚ), 1, (1000000 : ℚ)), (800000, 0, 800000)],
          [("2023-01-02", TAction.buy), ("2023-01-02", TAction.sell),
           ("2023-01-02", TAction.buy)]) := by
  with_unfolding_all rfl

/-- C2 (amended): whenever the trading-date universe is empty, `run_backtest`
fails fast — before simulating anything and with no partial result — but with
the untyped IndexError of `all_dates[0]` on line 78, not a typed EmptyHorizon
error (no such error exists in the source). -/
theorem C2_empty_universe_fails_with_index_error (cfg : Config) (signals : Signals)
    (price_data : PriceData) (start_date end_date : Option String)
    (h : _get_all_trading_dates signals price_data start_date end_date = .ok []) :
    run_backtest cfg signals price_data start_date end_date = .error .indexOutOfRange := by
  unfold run_backtest
  rw [h]

theorem C2_empty_universe_fails_with_index_error_witness :
    _get_all_trading_dates [("999-1-1", [⟨"AAA", none⟩])] [] none none = Except.ok [] ∧
    run_backtest cfgRebalMon [("999-1-1", [⟨"AAA", none⟩])] [] none none =
      .error .indexOutOfRange :=
  ⟨rfl, C2_empty_universe_fails_with_index_error cfgRebalMon
    [("999-1-1", [⟨"AAA", none⟩])] [] none none rfl⟩

/-- C2 (counterexample): on an input whose universe is empty (one unparseable
signal key, one empty price series), the run ends in `indexOutOfRange`, which
is not the typed `emptyHorizon` the claim requires. -/
theorem C2_index_error_not_empty_horizon :
    run_backtest cfgPlain sigBadKey pdEmptySeries none none = .error .indexOutOfRange ∧
    BTError.indexOutOfRange ≠ BTError.emptyHorizon :=
  ⟨by with_unfolding_all rfl, by decide⟩

/-- C6 (counterexample): in the two-consecutive-Mondays scenario the run
records 3 SELL and 4 BUY trades, not the 2 SELL and 2 BUY the claim states. -/
theorem C6_trade_count_counterexample :
    (run_backtest cfgRebalMon sigTwoMon pdTwoMon none none).toOption.map
      (fun o =>
        ((o.trade_history.filter (fun t => t.action == TAction.sell)).length,
         (o.trade_history.filter (fun t => t.action == TAction.buy)).length)) =
      some (3, 4) ∧ ((3 : Nat), (4 : Nat)) ≠ (2, 2) :=
  ⟨by with_unfolding_all rfl, by decide⟩

theorem buyStep_eq_buyStepSpec (cfg : Config) (price_data : PriceData)
    (current_date : Date) (date_str : String) (n : Nat)
    (st : Positions × ℚ × List Trade) (signal : Sig) :
    buyStep cfg price_data current_date date_str n st signal =
      buyStepSpec cfg price_data current_date date_str n st signal := by
  unfold buyStep buyStepSpec
  have h02 : (0.2 : ℚ) = 20 / 100 := by norm_num
  rw [h02]
  dsimp only
  by_cases hh : heldIn st.1 signal.code = true
  · rw [if_pos hh, if_pos hh]
  · rw [if_neg hh, if_neg hh]
    cases hclose : closeOn price_data signal.code current_date with
    | none => rfl
    | some price =>
      dsimp only
      split_ifs <;> first | rfl | tauto

/-- C3 (amended): signal execution is the fold of the per-candidate rule in
which already-held candidates and candidates without a bar are skipped with
cash and ledger unchanged, and each executed entry is allocated current cash
divided by the length of the day's full signal list — counting held and
bar-less candidates too, not only the remaining ones — capped at 20 percent
of current cash, lot-rounded to hundreds, and skipped when the rounded share
count is zero or the total cost including commission exceeds current cash. -/
theorem C3_buy_allocation_divides_by_full_count (cfg : Config) (buy_signals : List Sig)
    (positions : Positions) (price_data : PriceData) (capital : ℚ)
    (current_date : Date) (date_str : String) :
    _execute_buy_signals cfg buy_signals positions price_data capital current_date date_str =
      buy_signals.foldl (buyStepSpec cfg price_data current_date date_str buy_signals.length)
        (positions, capital, []) := by
  unfold _execute_buy_signals
  rw [show buyStep cfg price_data current_date date_str buy_signals.length =
      buyStepSpec cfg price_data current_date date_str buy_signals.length from
    funext fun st => funext fun signal =>
      buyStep_eq_buyStepSpec cfg price_data current_date date_str buy_signals.length st signal]

/-- C3 (counterexample): with five of six signalled instruments already held
and 600000 of cash, the engine buys 10000 shares of the remaining candidate F
at price 10 (allocating cash divided by 6, the full signal count), while the
claim's allocation over the one remaining candidate prescribes 12000 shares
(cash divided by 1, capped at 20 percent). -/
theorem C3_remaining_count_counterexample :
    ((_execute_buy_signals cfgRebalMon sigSix heldFive pdOnlyF 600000 ⟨2023, 1, 9⟩
        "2023-01-09").2.2.map (fun t => (t.code, t.shares)) = [("F", 10000)]) ∧
    claimSharesRemaining 600000 10 1 = 12000 ∧ ((10000 : Int) ≠ 12000) :=
  ⟨by with_unfolding_all rfl, by with_unfolding_all rfl, by decide⟩

/-- C7 (amended): the constructor performs no validation at all — any
configuration, including non-positive capital, a stop-loss threshold outside
(0,1), a negative commission rate, or a rebalance weekday outside 0-6, is
accepted and stored unchanged, no ConfigurationError is ever produced, and
the simulation loop still runs (shown on a one-day horizon, which yields one
snapshot and no trades, for a configuration violating all four rules). -/
theorem C7_no_configuration_validation (ic sl cr : ℚ) (rweek : Bool) (rd : Int)
    (_hbad : ic ≤ 0 ∨ sl ≤ 0 ∨ 1 ≤ sl ∨ cr < 0 ∨ rd < 0 ∨ 6 < rd) :
    BacktestEngine.init ic sl cr rweek rd = .ok ⟨ic, sl, cr, rweek, rd⟩ ∧
    (run_backtest cfgInvalid sigProbeTue [] none none).toOption.map
      (fun o => (o.portfolio_history.length, o.trade_history.length)) = some (1, 0) :=
  ⟨rfl, by with_unfolding_all rfl⟩

theorem C7_no_configuration_validation_witness :
    ((-1 : ℚ) ≤ 0 ∨ (2 : ℚ) ≤ 0 ∨ (1 : ℚ) ≤ 2 ∨ (-1 : ℚ) < 0 ∨ (9 : Int) < 0 ∨ 6 < (9 : Int)) ∧
    (BacktestEngine.init (-1) 2 (-1) true 9 = .ok ⟨-1, 2, -1, true, 9⟩ ∧
      (run_backtest cfgInvalid sigProbeTue [] none none).toOption.map
        (fun o => (o.portfolio_history.length, o.trade_history.length)) = some (1, 0)) :=
  ⟨Or.inl (by norm_num), C7_no_configuration_validation (-1) 2 (-1) true 9 (Or.inl (by norm_num))⟩

/-- C7 (counterexample): constructing the engine with initial capital -1,
threshold 2, commission -1 and weekday 9 succeeds — no ConfigurationError is
raised before the loop. -/
theorem C7_invalid_config_accepted :
    BacktestEngine.init (-1) 2 (-1) true 9 = .ok cfgInvalid ∧
    (BacktestEngine.init (-1) 2 (-1) true 9).isOk = true :=
  ⟨rfl, rfl⟩

/-- C8: the metrics calculation is total and degrades to defined zero values:
the annual return is 0 when no calendar time elapsed, the Sharpe ratio is 0
when the standard deviation of daily returns is zero or undefined (fewer than
two returns), all SELL-based statistics (win rate, average win, average loss,
average holding days) are 0 when there is no SELL trade, and an empty
snapshot history short-circuits to no result instead of raising. -/
theorem C8_metrics_never_raise :
    (∀ (ic fv : ℚ) (days : Int), days ≤ 0 → annual_return_pct_of ic fv days = 0) ∧
    (∀ values : List ℚ,
      (dailyReturns values).length < 2 ∨ varNumQ (dailyReturns values) ≤ 0 →
      sharpe_of values = 0) ∧
    (∀ trades : List Trade, trades.filter (fun t => t.action == TAction.sell) = [] →
      (_trade_stats trades).2.1 = 0 ∧ (_trade_stats trades).2.2.1 = 0 ∧
      (_trade_stats trades).2.2.2.1 = 0 ∧ (_trade_stats trades).2.2.2.2 = 0) ∧
    (∀ (cfg : Config) (trades : List Trade), _calculate_results_q cfg [] trades = none) := by
  refine ⟨?_, ?_, ?_, ?_⟩
  · intro ic fv days h
    simp only [annual_return_pct_of]
    rw [if_neg]
    intro hpos
    have hd : ((days : ℚ)) ≤ 0 := by exact_mod_cast h
    have hq : (days : ℚ) / (365.25 : ℚ) ≤ 0 :=
      div_nonpos_of_nonpos_of_nonneg hd (by norm_num)
    exact absurd hpos (not_lt.mpr hq)
  · intro values h
    simp only [sharpe_of]
    rw [if_neg]
    rintro ⟨h1, h2⟩
    rcases h with h | h
    · omega
    · exact absurd h2 (not_lt.mpr h)
  · intro trades h
    match trades with
    | [] => simp [_trade_stats]
    | t :: rest =>
      simp only [_trade_stats]
      rw [h]
      simp
  · intro cfg trades
    rfl

theorem C8_metrics_never_raise_witness :
    ((0 : Int) ≤ 0 ∧ annual_return_pct_of 1 2 0 = 0) ∧
    (((dailyReturns [5]).length < 2 ∨ varNumQ (dailyReturns [5]) ≤ 0) ∧ sharpe_of [5] = 0) ∧
    ((tradeBuyOnly.filter (fun t => t.action == TAction.sell) = []) ∧
      (_trade_stats tradeBuyOnly).2.1 = 0 ∧ (_trade_stats tradeBuyOnly).2.2.1 = 0 ∧
      (_trade_stats tradeBuyOnly).2.2.2.1 = 0 ∧ (_trade_stats tradeBuyOnly).2.2.2.2 = 0) ∧
    _calculate_results_q cfgPlain [] [] = none :=
  ⟨⟨le_refl 0, C8_metrics_never_raise.1 1 2 0 (le_refl 0)⟩,
   ⟨Or.inl (by decide), C8_metrics_never_raise.2.1 [5] (Or.inl (by decide))⟩,
   ⟨rfl, C8_metrics_never_raise.2.2.1 tradeBuyOnly rfl⟩,
   C8_metrics_never_raise.2.2.2 cfgPlain []⟩

/-- C10: when building the trading-date universe, a signal key that does not
parse as a date contributes nothing and raises nothing — the universe is the
same as without that key — while every date of every present, non-empty price
series is in the universe, whether or not any signal exists for it. -/
theorem C10_unparseable_keys_skipped_price_dates_enter :
    (∀ (key : String) (sigs : List Sig) (signals : Signals) (price_data : PriceData)
        (start_date end_date : Option String), parseDate key = none →
      _get_all_trading_dates ((key, sigs) :: signals) price_data start_date end_date =
        _get_all_trading_dates signals price_data start_date end_date) ∧
    (∀ (signals : Signals) (price_data : PriceData) (code : String) (series : PriceSeries)
        (day : Date) (px : ℚ) (ds : List Date),
      (code, some series) ∈ price_data → (day, px) ∈ series →
      _get_all_trading_dates signals price_data none none = .ok ds → day ∈ ds) := by
  constructor
  · intro key sigs signals price_data start_date end_date h
    unfold _get_all_trading_dates
    rw [List.foldl_cons, show signalDatesStep [] (key, sigs) = [] by
      unfold signalDatesStep; rw [h]]
  · intro signals price_data code series day px ds hmem hbar hok
    unfold _get_all_trading_dates at hok
    simp only at hok
    injection hok with hds
    subst hds
    rw [mem_sortDates, mem_dedupDates]
    apply List.mem_append_right
    exact mem_foldl_priceDatesStep price_data [] code series day hmem
      (List.mem_map.mpr ⟨(day, px), hbar, rfl⟩)

theorem C10_unparseable_keys_skipped_price_dates_enter_witness :
    (parseDate "999-1-1" = none ∧ parseDate "2023-01- 5" = some ⟨2023, 1, 5⟩ ∧
      parseDate "garbage" = none ∧
      _get_all_trading_dates [("999-1-1", []), ("2023-01-02", [])] [] none none =
        _get_all_trading_dates [("2023-01-02", [])] [] none none) ∧
    (("AAA", some [(⟨2023, 1, 2⟩, (10 : ℚ))]) ∈ pdOneBar ∧
      ((⟨2023, 1, 2⟩ : Date), (10 : ℚ)) ∈ [((⟨2023, 1, 2⟩ : Date), (10 : ℚ))] ∧
      _get_all_trading_dates [] pdOneBar none none = .ok [⟨2023, 1, 2⟩] ∧
      (⟨2023, 1, 2⟩ : Date) ∈ [(⟨2023, 1, 2⟩ : Date)]) :=
  ⟨⟨rfl, rfl, rfl,
    C10_unparseable_keys_skipped_price_dates_enter.1 "999-1-1" [] [("2023-01-02", [])]
      [] none none rfl⟩,
   ⟨List.mem_singleton.mpr rfl, List.mem_singleton.mpr rfl, rfl,
    C10_unparseable_keys_skipped_price_dates_enter.2 [] pdOneBar "AAA"
      [(⟨2023, 1, 2⟩, 10)] ⟨2023, 1, 2⟩ 10 [⟨2023, 1, 2⟩]
      (List.mem_singleton.mpr rfl) (List.mem_singleton.mpr rfl) rfl⟩⟩

theorem pv_foldl (price_data : PriceData) (current_date : Date) :
    ∀ (positions : Positions) (capital : ℚ),
    _calculate_portfolio_value positions price_data capital current_date =
      capital + ((positions.filter (hasBarOn price_data current_date)).map
        (fun cp => ((closeOn price_data cp.1 current_date).getD 0) * (cp.2.shares : ℚ))).sum := by
  intro positions
  unfold _calculate_portfolio_value
  induction positions with
  | nil => intro capital; simp
  | cons cp rest ih =>
    intro capital
    rw [List.foldl_cons]
    cases hclose : closeOn price_data cp.1 current_date with
    | none =>
      simp only [hclose]
      rw [ih]
      simp [List.filter_cons, hasBarOn, hclose]
    | some px =>
      simp only [hclose]
      rw [ih]
      simp only [List.filter_cons, hasBarOn, hclose, Option.isSome_some, if_pos,
        List.map_cons, List.sum_cons, Option.getD_some]
      ring

/-- C5 (amended): the recorded total portfolio value is cash plus the sum of
shares times today's close over exactly those open positions that have a
price bar today; an open position without a bar today stays in the ledger
but contributes nothing to that day's recorded total — appending such a
position leaves the valuation unchanged. -/
theorem C5_valuation_skips_barless (positions : Positions) (price_data : PriceData)
    (capital : ℚ) (current_date : Date) :
    (_calculate_portfolio_value positions price_data capital current_date =
      capital + ((positions.filter (hasBarOn price_data current_date)).map
        (fun cp => ((closeOn price_data cp.1 current_date).getD 0) * (cp.2.shares : ℚ))).sum) ∧
    (∀ cp : String × Position, hasBarOn price_data current_date cp = false →
      _calculate_portfolio_value (positions ++ [cp]) price_data capital current_date =
        _calculate_portfolio_value positions price_data capital current_date) := by
  constructor
  · exact pv_foldl price_data current_date positions capital
  · intro cp hbar
    have hnone : closeOn price_data cp.1 current_date = none := by
      unfold hasBarOn at hbar
      cases h : closeOn price_data cp.1 current_date with
      | none => rfl
      | some px => rw [h] at hbar; simp at hbar
    unfold _calculate_portfolio_value
    rw [List.foldl_append, List.foldl_cons, List.foldl_nil, hnone]

theorem C5_valuation_skips_barless_witness :
    hasBarOn pdStale ⟨2023, 1, 3⟩ ("AAA", ⟨100, 10, 10, ⟨2023, 1, 2⟩, "A"⟩) = false ∧
    _calculate_portfolio_value ([] ++ [("AAA", ⟨100, 10, 10, ⟨2023, 1, 2⟩, "A"⟩)])
        pdStale 100 ⟨2023, 1, 3⟩ =
      _calculate_portfolio_value [] pdStale 100 ⟨2023, 1, 3⟩ :=
  ⟨rfl, (C5_valuation_skips_barless [] pdStale 100 ⟨2023, 1, 3⟩).2
    ("AAA", ⟨100, 10, 10, ⟨2023, 1, 2⟩, "A"⟩) rfl⟩

/-- C5 (counterexample): a position of 100 shares whose instrument last
traded at 10 on 2023-01-02 has no bar on 2023-01-03; the engine values the
portfolio that day at the bare cash 100, not at the 1100 that the claim's
last-known-close carry-forward would give. -/
theorem C5_no_carry_forward_counterexample :
    _calculate_portfolio_value posStale pdStale 100 ⟨2023, 1, 3⟩ = 100 ∧
    claimCarryValue posStale pdStale 100 ⟨2023, 1, 3⟩ = 1100 ∧ ((100 : ℚ) ≠ 1100) :=
  ⟨by with_unfolding_all rfl, by with_unfolding_all rfl, by norm_num⟩

theorem slStep_foldl (cfg : Config) (price_data : PriceData) (current_date : Date)
    (date_str : String) :
    ∀ (ps : Positions) (cap : ℚ) (ts : List Trade) (rs : List String),
    ps.foldl (slStep cfg price_data current_date date_str) (cap, ts, rs) =
      (cap + ((ps.filter (slFires cfg price_data current_date)).map
          (fun cp => sellNet cfg ((closeOn price_data cp.1 current_date).getD 0)
            cp.2.shares)).sum,
       ts ++ (ps.filter (slFires cfg price_data current_date)).map
          (slTrade cfg price_data current_date date_str),
       rs ++ (ps.filter (slFires cfg price_data current_date)).map Prod.fst) := by
  intro ps
  induction ps with
  | nil => intro cap ts rs; simp
  | cons cp rest ih =>
    intro cap ts rs
    rw [List.foldl_cons]
    by_cases hf : slFires cfg price_data current_date cp = true
    · rw [show slStep cfg price_data current_date date_str (cap, ts, rs) cp =
          (cap + sellNet cfg ((closeOn price_data cp.1 current_date).getD 0) cp.2.shares,
           ts ++ [slTrade cfg price_data current_date date_str cp], rs ++ [cp.1]) from by
        unfold slStep; rw [if_pos hf]]
      rw [ih]
      simp only [List.filter_cons, hf, if_pos, List.map_cons, List.sum_cons,
        List.append_assoc, List.singleton_append]
      rw [add_assoc]
    · rw [show slStep cfg price_data current_date date_str (cap, ts, rs) cp = (cap, ts, rs)
          from by unfold slStep; rw [if_neg hf]]
      rw [ih]
      simp only [List.filter_cons, hf]
      rw [if_neg (by simp)]

theorem csl_closed (cfg : Config) (ps : Positions) (price_data : PriceData) (cap : ℚ)
    (current_date : Date) (date_str : String) :
    _check_stop_loss cfg ps price_data cap current_date date_str =
      (ps.filter (fun cp =>
          ¬ (((ps.filter (slFires cfg price_data current_date)).map Prod.fst).contains cp.1)),
       cap + ((ps.filter (slFires cfg price_data current_date)).map
          (fun cp => sellNet cfg ((closeOn price_data cp.1 current_date).getD 0)
            cp.2.shares)).sum,
       (ps.filter (slFires cfg price_data current_date)).map
          (slTrade cfg price_data current_date date_str)) := by
  unfold _check_stop_loss
  rw [slStep_foldl]
  simp

theorem mem_csl_positions (cfg : Config) (ps : Positions) (price_data : PriceData)
    (cap : ℚ) (current_date : Date) (date_str : String)
    (hnodup : (ps.map Prod.fst).Nodup) (cp : String × Position) (hcp : cp ∈ ps) :
    cp ∈ (_check_stop_loss cfg ps price_data cap current_date date_str).1 ↔
      slFires cfg price_data current_date cp = false := by
  rw [csl_closed]
  constructor
  · intro hmem
    rcases List.mem_filter.mp hmem with ⟨_, hpred⟩
    simp only [decide_eq_true_eq] at hpred
    by_contra hfneq
    rw [Bool.not_eq_false] at hfneq
    apply hpred
    exact List.elem_iff.mpr (List.mem_map.mpr
      ⟨cp, List.mem_filter.mpr ⟨hcp, hfneq⟩, rfl⟩)
  · intro hfalse
    apply List.mem_filter.mpr
    refine ⟨hcp, ?_⟩
    simp only [decide_eq_true_eq]
    intro hcontains
    rcases List.mem_map.mp (List.elem_iff.mp hcontains) with ⟨cq, hcqf, heq⟩
    rcases List.mem_filter.mp hcqf with ⟨hcq, hcqfires⟩
    have hceq : cq = cp := List.inj_on_of_nodup_map hnodup hcq hcp heq
    rw [hceq, hfalse] at hcqfires
    exact Bool.false_ne_true hcqfires

/-- C4: for positions with a price bar on the date, the stop-loss rule
liquidates the entire position exactly when the drawdown from the running
high-water mark reaches the threshold: the position is removed from the
ledger iff the drawdown condition holds; when it fires, a SELL trade is
recorded at today's close with gross = price × shares, commission = gross ×
commission_rate, realized pnl = net proceeds minus the cost basis grown by a
symmetric entry commission, and holding days measured from the entry date;
the freed cash credited is the sum of the net proceeds of exactly the
triggered positions; and every trade the rule emits belongs to a triggered
position, hence satisfies (high_water − exit_price) / high_water ≥
stop_loss_threshold. -/
theorem C4_stop_loss_exact (cfg : Config) (ps : Positions) (price_data : PriceData)
    (cap : ℚ) (current_date : Date) (date_str : String)
    (cp : String × Position) (px : ℚ) (t : Trade)
    (hnodup : (ps.map Prod.fst).Nodup)
    (_hwm : ∀ cq ∈ ps, 0 < cq.2.max_price)
    (hcp : cp ∈ ps)
    (hpx : closeOn price_data cp.1 current_date = some px)
    (ht : t ∈ (_check_stop_loss cfg ps price_data cap current_date date_str).2.2) :
    ((cfg.stop_loss_pct ≤ (cp.2.max_price - px) / cp.2.max_price) ↔
      cp ∉ (_check_stop_loss cfg ps price_data cap current_date date_str).1) ∧
    (cfg.stop_loss_pct ≤ (cp.2.max_price - px) / cp.2.max_price →
      slTrade cfg price_data current_date date_str cp ∈
        (_check_stop_loss cfg ps price_data cap current_date date_str).2.2 ∧
      (slTrade cfg price_data current_date date_str cp).action = .sell ∧
      (slTrade cfg price_data current_date date_str cp).price = px ∧
      (slTrade cfg price_data current_date date_str cp).shares = cp.2.shares ∧
      (slTrade cfg price_data current_date date_str cp).amount = px * (cp.2.shares : ℚ) ∧
      (slTrade cfg price_data current_date date_str cp).commission =
        px * (cp.2.shares : ℚ) * cfg.commission_rate ∧
      (slTrade cfg price_data current_date date_str cp).pnl =
        (px * (cp.2.shares : ℚ) - px * (cp.2.shares : ℚ) * cfg.commission_rate) -
          cp.2.avg_price * (cp.2.shares : ℚ) * (1 + cfg.commission_rate) ∧
      (slTrade cfg price_data current_date date_str cp).holding_days =
        current_date.epochDays - cp.2.buy_date.epochDays) ∧
    ((_check_stop_loss cfg ps price_data cap current_date date_str).2.1 =
      cap + ((ps.filter (slFires cfg price_data current_date)).map
        (fun cq => sellNet cfg ((closeOn price_data cq.1 current_date).getD 0)
          cq.2.shares)).sum) ∧
    (∃ cq, cq ∈ ps ∧ ∃ qx, closeOn price_data cq.1 current_date = some qx ∧
      cfg.stop_loss_pct ≤ (cq.2.max_price - qx) / cq.2.max_price ∧
      t = slTrade cfg price_data current_date date_str cq ∧ t.price = qx ∧
      cfg.stop_loss_pct ≤ (cq.2.max_price - t.price) / cq.2.max_price) := by
  refine ⟨?_, ?_, ?_, ?_⟩
  · constructor
    · intro hdd
      have hfires : slFires cfg price_data current_date cp = true := by
        unfold slFires; rw [hpx]; exact decide_eq_true hdd
      intro hkeep
      rw [mem_csl_positions cfg ps price_data cap current_date date_str hnodup cp hcp]
        at hkeep
      rw [hfires] at hkeep
      exact absurd hkeep (by decide)
    · intro hgone
      by_contra hdd
      apply hgone
      rw [mem_csl_positions cfg ps price_data cap current_date date_str hnodup cp hcp]
      unfold slFires
      rw [hpx]
      exact decide_eq_false hdd
  · intro hdd
    have hfires : slFires cfg price_data current_date cp = true := by
      unfold slFires; rw [hpx]; exact decide_eq_true hdd
    refine ⟨?_, rfl, ?_, rfl, ?_, ?_, ?_, ?_⟩
    · rw [csl_closed]
      exact List.mem_map_of_mem _ (List.mem_filter.mpr ⟨hcp, hfires⟩)
    · simp [slTrade, hpx]
    · simp [slTrade, hpx]
    · simp [slTrade, hpx]
    · simp only [slTrade, hpx, Option.getD_some]
      ring
    · simp [slTrade, hpx]
  · rw [csl_closed]
  · rw [csl_closed] at ht
    rcases List.mem_map.mp ht with ⟨cq, hcqf, rfl⟩
    rcases List.mem_filter.mp hcqf with ⟨hcq, hfq⟩
    unfold slFires at hfq
    cases hq : closeOn price_data cq.1 current_date with
    | none => rw [hq] at hfq; simp at hfq
    | some qx =>
      rw [hq] at hfq
      have hddq : cfg.stop_loss_pct ≤ (cq.2.max_price - qx) / cq.2.max_price :=
        of_decide_eq_true hfq
      have hpq : (slTrade cfg price_data current_date date_str cq).price = qx := by
        simp [slTrade, hq]
      refine ⟨cq, hcq, qx, hq, hddq, rfl, hpq, ?_⟩
      rw [hpq]
      exact hddq

theorem C4_stop_loss_exact_witness :
    ((posW4.map Prod.fst).Nodup ∧ (∀ cq ∈ posW4, 0 < cq.2.max_price) ∧ cpW4 ∈ posW4 ∧
      closeOn pdW4 cpW4.1 ⟨2023, 1, 3⟩ = some (19 / 2) ∧
      tW4 ∈ (_check_stop_loss cfgPlain posW4 pdW4 0 ⟨2023, 1, 3⟩ "2023-01-03").2.2) ∧
    (((cfgPlain.stop_loss_pct ≤ (cpW4.2.max_price - 19 / 2) / cpW4.2.max_price) ↔
        cpW4 ∉ (_check_stop_loss cfgPlain posW4 pdW4 0 ⟨2023, 1, 3⟩ "2023-01-03").1) ∧
      (cfgPlain.stop_loss_pct ≤ (cpW4.2.max_price - 19 / 2) / cpW4.2.max_price →
        slTrade cfgPlain pdW4 ⟨2023, 1, 3⟩ "2023-01-03" cpW4 ∈
          (_check_stop_loss cfgPlain posW4 pdW4 0 ⟨2023, 1, 3⟩ "2023-01-03").2.2 ∧
        (slTrade cfgPlain pdW4 ⟨2023, 1, 3⟩ "2023-01-03" cpW4).action = .sell ∧
        (slTrade cfgPlain pdW4 ⟨2023, 1, 3⟩ "2023-01-03" cpW4).price = 19 / 2 ∧
        (slTrade cfgPlain pdW4 ⟨2023, 1, 3⟩ "2023-01-03" cpW4).shares = cpW4.2.shares ∧
        (slTrade cfgPlain pdW4 ⟨2023, 1, 3⟩ "2023-01-03" cpW4).amount =
          19 / 2 * (cpW4.2.shares : ℚ) ∧
        (slTrade cfgPlain pdW4 ⟨2023, 1, 3⟩ "2023-01-03" cpW4).commission =
          19 / 2 * (cpW4.2.shares : ℚ) * cfgPlain.commission_rate ∧
        (slTrade cfgPlain pdW4 ⟨2023, 1, 3⟩ "2023-01-03" cpW4).pnl =
          (19 / 2 * (cpW4.2.shares : ℚ) -
            19 / 2 * (cpW4.2.shares : ℚ) * cfgPlain.commission_rate) -
            cpW4.2.avg_price * (cpW4.2.shares : ℚ) * (1 + cfgPlain.commission_rate) ∧
        (slTrade cfgPlain pdW4 ⟨2023, 1, 3⟩ "2023-01-03" cpW4).holding_days =
          (⟨2023, 1, 3⟩ : Date).epochDays - cpW4.2.buy_date.epochDays) ∧
      ((_check_stop_loss cfgPlain posW4 pdW4 0 ⟨2023, 1, 3⟩ "2023-01-03").2.1 =
        0 + ((posW4.filter (slFires cfgPlain pdW4 ⟨2023, 1, 3⟩)).map
          (fun cq => sellNet cfgPlain ((closeOn pdW4 cq.1 ⟨2023, 1, 3⟩).getD 0)
            cq.2.shares)).sum) ∧
      (∃ cq, cq ∈ posW4 ∧ ∃ qx, closeOn pdW4 cq.1 ⟨2023, 1, 3⟩ = some qx ∧
        cfgPlain.stop_loss_pct ≤ (cq.2.max_price - qx) / cq.2.max_price ∧
        tW4 = slTrade cfgPlain pdW4 ⟨2023, 1, 3⟩ "2023-01-03" cq ∧ tW4.price = qx ∧
        cfgPlain.stop_loss_pct ≤ (cq.2.max_price - tW4.price) / cq.2.max_price)) := by
  have hnodup : (posW4.map Prod.fst).Nodup := by simp [posW4, cpW4]
  have hwm : ∀ cq ∈ posW4, 0 < cq.2.max_price := by
    intro cq hq
    simp only [posW4, List.mem_singleton] at hq
    subst hq
    norm_num [cpW4]
  have hpx : closeOn pdW4 cpW4.1 ⟨2023, 1, 3⟩ = some (19 / 2) := rfl
  have htr : (_check_stop_loss cfgPlain posW4 pdW4 0 ⟨2023, 1, 3⟩ "2023-01-03").2.2 =
      [tW4] := by
    with_unfolding_all rfl
  have ht : tW4 ∈ (_check_stop_loss cfgPlain posW4 pdW4 0 ⟨2023, 1, 3⟩ "2023-01-03").2.2 := by
    rw [htr]
    exact List.mem_singleton.mpr rfl
  exact ⟨⟨hnodup, hwm, List.mem_singleton.mpr rfl, hpx, ht⟩,
    C4_stop_loss_exact cfgPlain posW4 pdW4 0 ⟨2023, 1, 3⟩ "2023-01-03" cpW4 (19 / 2) tW4
      hnodup hwm (List.mem_singleton.mpr rfl) hpx ht⟩

theorem foldl_preserve_mem {α σ : Type _} (P : σ → Prop) (f : σ → α → σ) :
    ∀ l : List α, (∀ s a, a ∈ l → P s → P (f s a)) → ∀ s, P s → P (l.foldl f s) := by
  intro l
  induction l with
  | nil => intro _ s h; simpa using h
  | cons a rest ih =>
    intro hstep s h
    rw [List.foldl_cons]
    exact ih (fun s' a' ha' => hstep s' a' (List.mem_cons_of_mem a ha'))
      (f s a) (hstep s a (List.mem_cons_self a rest) h)

theorem closeOn_nonneg (price_data : PriceData) (code : String) (day : Date) (px : ℚ)
    (hp : pricesNonneg price_data) (h : closeOn price_data code day = some px) :
    0 ≤ px := by
  unfold closeOn at h
  cases hf : price_data.find? (fun p => p.1 == code) with
  | none => rw [hf] at h; simp at h
  | some kv =>
    rw [hf] at h
    rcases kv with ⟨c, s⟩
    cases s with
    | none => simp at h
    | some series =>
      dsimp only at h
      cases hb : series.find? (fun b => b.1 == day) with
      | none => rw [hb] at h; simp at h
      | some b =>
        rw [hb] at h
        simp only [Option.map_some'] at h
        injection h with h
        subst h
        exact hp c series (List.mem_of_find?_eq_some hf) b (List.mem_of_find?_eq_some hb)

theorem sellNet_nonneg (cfg : Config) (px : ℚ) (sh : Int)
    (_hr0 : 0 ≤ cfg.commission_rate) (hr1 : cfg.commission_rate ≤ 1)
    (hpx : 0 ≤ px) (hsh : 0 ≤ sh) : 0 ≤ sellNet cfg px sh := by
  unfold sellNet
  have hshq : (0 : ℚ) ≤ (sh : ℚ) := by exact_mod_cast hsh
  nlinarith [mul_nonneg hpx hshq]

theorem upd_high_shares (positions : Positions) (price_data : PriceData)
    (current_date : Date) (hs : sharesNonneg positions) :
    sharesNonneg (_update_positions_high positions price_data current_date) := by
  intro cp' hcp'
  unfold _update_positions_high at hcp'
  rcases List.mem_map.mp hcp' with ⟨cp, hcp, heq⟩
  have hsh := hs cp hcp
  subst heq
  cases hclose : closeOn price_data cp.1 current_date with
  | none => simpa [hclose] using hsh
  | some px =>
    simp only [hclose]
    split <;> simpa using hsh

theorem settlementDelta_buy (t : Trade) (h : t.action = .buy) :
    settlementDelta t = -(t.amount + t.commission) := by
  unfold settlementDelta
  rw [h]

theorem settlementDelta_slTrade (cfg : Config) (price_data : PriceData)
    (current_date : Date) (date_str : String) (cp : String × Position) :
    settlementDelta (slTrade cfg price_data current_date date_str cp) =
      sellNet cfg ((closeOn price_data cp.1 current_date).getD 0) cp.2.shares := rfl

theorem settlementDelta_rebTrade (cfg : Config) (price_data : PriceData)
    (current_date : Date) (date_str : String) (cp : String × Position) :
    settlementDelta (rebTrade cfg price_data current_date date_str cp) =
      sellNet cfg ((closeOn price_data cp.1 current_date).getD 0) cp.2.shares := rfl

theorem csl_preserves (cfg : Config) (ps : Positions) (price_data : PriceData)
    (cap : ℚ) (current_date : Date) (date_str : String)
    (h0 : 0 ≤ cap) (hs : sharesNonneg ps) (hp : pricesNonneg price_data)
    (hr0 : 0 ≤ cfg.commission_rate) (hr1 : cfg.commission_rate ≤ 1) :
    0 ≤ (_check_stop_loss cfg ps price_data cap current_date date_str).2.1 ∧
    sharesNonneg (_check_stop_loss cfg ps price_data cap current_date date_str).1 ∧
    (_check_stop_loss cfg ps price_data cap current_date date_str).2.1 =
      cap + (((_check_stop_loss cfg ps price_data cap current_date date_str).2.2).map
        settlementDelta).sum := by
  rw [csl_closed]
  refine ⟨?_, ?_, ?_⟩
  · apply add_nonneg h0
    apply List.sum_nonneg
    intro x hx
    rcases List.mem_map.mp hx with ⟨cp, hcpf, rfl⟩
    rcases List.mem_filter.mp hcpf with ⟨hcp, hfires⟩
    unfold slFires at hfires
    cases hclose : closeOn price_data cp.1 current_date with
    | none => rw [hclose] at hfires; simp at hfires
    | some px =>
      have hn := sellNet_nonneg cfg px cp.2.shares hr0 hr1
        (closeOn_nonneg price_data cp.1 current_date px hp hclose) (hs cp hcp)
      simpa [hclose] using hn
  · intro cp hcp
    exact hs cp (List.mem_filter.mp hcp).1
  · dsimp only
    rw [List.map_map]
    rfl

theorem buyStep_preserves (cfg : Config) (price_data : PriceData) (current_date : Date)
    (date_str : String) (n : Nat) (cap0 : ℚ) (st : Positions × ℚ × List Trade) (sig : Sig)
    (h : 0 ≤ st.2.1 ∧ sharesNonneg st.1 ∧
      st.2.1 = cap0 + (st.2.2.map settlementDelta).sum) :
    0 ≤ (buyStep cfg price_data current_date date_str n st sig).2.1 ∧
    sharesNonneg (buyStep cfg price_data current_date date_str n st sig).1 ∧
    (buyStep cfg price_data current_date date_str n st sig).2.1 =
      cap0 + (((buyStep cfg price_data current_date date_str n st sig).2.2).map
        settlementDelta).sum := by
  unfold buyStep
  by_cases hh : heldIn st.1 sig.code = true
  · rw [if_pos hh]; exact h
  · rw [if_neg hh]
    cases hclose : closeOn price_data sig.code current_date with
    | none => exact h
    | some price =>
      dsimp only
      split_ifs with hn hsh hcap hsh2 hcap2
      · exact h
      · exact h
      · obtain ⟨hc, hs, hid⟩ := h
        refine ⟨?_, ?_, ?_⟩
        · exact sub_nonneg.mpr (not_lt.mp hcap)
        · intro cp hcp
          rcases List.mem_append.mp hcp with h' | h'
          · exact hs cp h'
          · simp only [List.mem_singleton] at h'
            subst h'
            exact le_of_lt (not_le.mp hsh)
        · simp only [List.map_append, List.map_cons, List.map_nil, List.sum_append,
            List.sum_cons, List.sum_nil]
          rw [settlementDelta_buy _ rfl]
          dsimp only
          rw [hid]
          ring
      · exact h
      · exact h
      · obtain ⟨hc, hs, hid⟩ := h
        refine ⟨?_, ?_, ?_⟩
        · exact sub_nonneg.mpr (not_lt.mp hcap2)
        · intro cp hcp
          rcases List.mem_append.mp hcp with h' | h'
          · exact hs cp h'
          · simp only [List.mem_singleton] at h'
            subst h'
            exact le_of_lt (not_le.mp hsh2)
        · simp only [List.map_append, List.map_cons, List.map_nil, List.sum_append,
            List.sum_cons, List.sum_nil]
          rw [settlementDelta_buy _ rfl]
          dsimp only
          rw [hid]
          ring

theorem ebs_preserves (cfg : Config) (buy_signals : List Sig) (positions : Positions)
    (price_data : PriceData) (capital : ℚ) (current_date : Date) (date_str : String)
    (h0 : 0 ≤ capital) (hs : sharesNonneg positions) :
    0 ≤ (_execute_buy_signals cfg buy_signals positions price_data capital
        current_date date_str).2.1 ∧
    sharesNonneg (_execute_buy_signals cfg buy_signals positions price_data capital
        current_date date_str).1 ∧
    (_execute_buy_signals cfg buy_signals positions price_data capital
        current_date date_str).2.1 =
      capital + (((_execute_buy_signals cfg buy_signals positions price_data capital
        current_date date_str).2.2).map settlementDelta).sum := by
  unfold _execute_buy_signals
  have := foldl_preserve_mem
    (fun st : Positions × ℚ × List Trade =>
      0 ≤ st.2.1 ∧ sharesNonneg st.1 ∧
        st.2.1 = capital + (st.2.2.map settlementDelta).sum)
    (buyStep cfg price_data current_date date_str buy_signals.length)
    buy_signals
    (fun st sig _ hst =>
      buyStep_preserves cfg price_data current_date date_str buy_signals.length
        capital st sig hst)
    (positions, capital, [])
    ⟨h0, hs, by simp⟩
  exact this

theorem reb_preserves (cfg : Config) (positions : Positions) (price_data : PriceData)
    (capital : ℚ) (current_date : Date) (date_str : String) (today_signals : List Sig)
    (h0 : 0 ≤ capital) (hs : sharesNonneg positions) (hp : pricesNonneg price_data)
    (hr0 : 0 ≤ cfg.commission_rate) (hr1 : cfg.commission_rate ≤ 1) :
    0 ≤ (_execute_weekly_rebalance cfg positions price_data capital current_date
        date_str today_signals).2.1 ∧
    sharesNonneg (_execute_weekly_rebalance cfg positions price_data capital current_date
        date_str today_signals).1 ∧
    (_execute_weekly_rebalance cfg positions price_data capital current_date
        date_str today_signals).2.1 =
      capital + (((_execute_weekly_rebalance cfg positions price_data capital current_date
        date_str today_signals).2.2).map settlementDelta).sum := by
  unfold _execute_weekly_rebalance
  split_ifs with hempty hsig
  · exact ⟨h0, hs, by simp⟩
  · -- sell everything, no re-entry
    have hacc := foldl_preserve_mem
      (fun acc : ℚ × List Trade =>
        0 ≤ acc.1 ∧ acc.1 = capital + (acc.2.map settlementDelta).sum)
      (rebSellStep cfg price_data current_date date_str) positions
      (fun acc cp hcp hAcc => by
        unfold rebSellStep
        cases hclose : closeOn price_data cp.1 current_date with
        | none => exact hAcc
        | some px =>
          dsimp only
          obtain ⟨ha0, haid⟩ := hAcc
          constructor
          · exact add_nonneg ha0 (sellNet_nonneg cfg px cp.2.shares hr0 hr1
              (closeOn_nonneg price_data cp.1 current_date px hp hclose) (hs cp hcp))
          · simp only [List.map_append, List.map_cons, List.map_nil, List.sum_append,
              List.sum_cons, List.sum_nil]
            rw [settlementDelta_rebTrade, hclose]
            simp only [Option.getD_some]
            rw [haid]
            ring)
      (capital, []) ⟨h0, by simp⟩
    exact ⟨hacc.1, fun cp hcp => absurd hcp (List.not_mem_nil cp), hacc.2⟩
  · -- sell everything, then re-enter from today's signals
    have hacc := foldl_preserve_mem
      (fun acc : ℚ × List Trade =>
        0 ≤ acc.1 ∧ acc.1 = capital + (acc.2.map settlementDelta).sum)
      (rebSellStep cfg price_data current_date date_str) positions
      (fun acc cp hcp hAcc => by
        unfold rebSellStep
        cases hclose : closeOn price_data cp.1 current_date with
        | none => exact hAcc
        | some px =>
          dsimp only
          obtain ⟨ha0, haid⟩ := hAcc
          constructor
          · exact add_nonneg ha0 (sellNet_nonneg cfg px cp.2.shares hr0 hr1
              (closeOn_nonneg price_data cp.1 current_date px hp hclose) (hs cp hcp))
          · simp only [List.map_append, List.map_cons, List.map_nil, List.sum_append,
              List.sum_cons, List.sum_nil]
            rw [settlementDelta_rebTrade, hclose]
            simp only [Option.getD_some]
            rw [haid]
            ring)
      (capital, []) ⟨h0, by simp⟩
    obtain ⟨ha0, haid⟩ := hacc
    have hbuy := ebs_preserves cfg today_signals [] price_data
      (positions.foldl (rebSellStep cfg price_data current_date date_str) (capital, [])).1
      current_date date_str ha0 (fun cp hcp => absurd hcp (List.not_mem_nil cp))
    obtain ⟨hb0, hbs, hbid⟩ := hbuy
    refine ⟨hb0, hbs, ?_⟩
    rw [List.map_append, List.sum_append, hbid, haid]
    ring

theorem runDay_preserves (cfg : Config) (signals : Signals) (price_data : PriceData)
    (hp : pricesNonneg price_data) (hr0 : 0 ≤ cfg.commission_rate)
    (hr1 : cfg.commission_rate ≤ 1) (st : EngineState) (current_date : Date)
    (h : 0 ≤ st.capital ∧ sharesNonneg st.positions ∧
      st.capital = cfg.initial_capital + (st.trade_history.map settlementDelta).sum ∧
      (∀ r ∈ st.portfolio_history, 0 ≤ r.cash) ∧
      (∀ r ∈ st.portfolio_history, ∃ k, k ≤ st.trade_history.length ∧
        r.cash = cfg.initial_capital +
          ((st.trade_history.take k).map settlementDelta).sum) ∧
      (∀ r, st.portfolio_history.getLast? = some r → r.cash = st.capital)) :
    0 ≤ (runDay cfg signals price_data st current_date).capital ∧
    sharesNonneg (runDay cfg signals price_data st current_date).positions ∧
    (runDay cfg signals price_data st current_date).capital =
      cfg.initial_capital +
        (((runDay cfg signals price_data st current_date).trade_history).map
          settlementDelta).sum ∧
    (∀ r ∈ (runDay cfg signals price_data st current_date).portfolio_history, 0 ≤ r.cash) ∧
    (∀ r ∈ (runDay cfg signals price_data st current_date).portfolio_history, ∃ k,
      k ≤ (runDay cfg signals price_data st current_date).trade_history.length ∧
      r.cash = cfg.initial_capital +
        ((((runDay cfg signals price_data st current_date).trade_history).take k).map
          settlementDelta).sum) ∧
    (∀ r, (runDay cfg signals price_data st current_date).portfolio_history.getLast? =
        some r → r.cash = (runDay cfg signals price_data st current_date).capital) := by
  obtain ⟨hc, hs, hid, hhist, hsnap, hlast⟩ := h
  have h1s : sharesNonneg (_update_positions_high st.positions price_data current_date) :=
    upd_high_shares st.positions price_data current_date hs
  obtain ⟨h2c, h2s, h2id⟩ := csl_preserves cfg
    (_update_positions_high st.positions price_data current_date) price_data st.capital
    current_date (formatDate current_date) hc h1s hp hr0 hr1
  unfold runDay
  cases hsig : signalsFor signals (formatDate current_date) with
  | none =>
    dsimp only
    rw [hsig]
    dsimp only
    by_cases hreb : (cfg.rebalance_weekly && _is_rebalance_day cfg current_date) = true
    · rw [if_pos hreb]
      simp only [Option.getD_none]
      obtain ⟨h4c, h4s, h4id⟩ := reb_preserves cfg
        (_check_stop_loss cfg (_update_positions_high st.positions price_data current_date)
          price_data st.capital current_date (formatDate current_date)).1 price_data
        (_check_stop_loss cfg (_update_positions_high st.positions price_data current_date)
          price_data st.capital current_date (formatDate current_date)).2.1
        current_date (formatDate current_date) [] h2c h2s hp hr0 hr1
      refine ⟨h4c, h4s, ?_, ?_, ?_, ?_⟩
      · dsimp only
        rw [h4id, h2id, hid]
        simp only [List.map_append, List.sum_append]
        ring
      · intro r hr
        rcases List.mem_append.mp hr with h' | h'
        · exact hhist r h'
        · simp only [List.mem_singleton] at h'
          subst h'
          exact h4c
      · intro r hr
        rcases List.mem_append.mp hr with h' | h'
        · obtain ⟨k, hk, heq⟩ := hsnap r h'
          refine ⟨k, ?_, ?_⟩
          · exact hk.trans (by rw [List.length_append]; exact Nat.le_add_right _ _)
          · rw [List.take_append_of_le_length hk]
            exact heq
        · simp only [List.mem_singleton] at h'
          subst h'
          refine ⟨_, le_refl _, ?_⟩
          rw [List.take_length]
          dsimp only
          rw [h4id, h2id, hid]
          simp only [List.map_append, List.sum_append]
          ring
      · intro r hr
        rw [List.getLast?_concat] at hr
        injection hr with hr
        subst hr
        rfl
    · rw [if_neg hreb]
      refine ⟨h2c, h2s, ?_, ?_, ?_, ?_⟩
      · dsimp only
        rw [h2id, hid]
        simp only [List.map_append, List.sum_append]
        ring
      · intro r hr
        rcases List.mem_append.mp hr with h' | h'
        · exact hhist r h'
        · simp only [List.mem_singleton] at h'
          subst h'
          exact h2c
      · intro r hr
        rcases List.mem_append.mp hr with h' | h'
        · obtain ⟨k, hk, heq⟩ := hsnap r h'
          refine ⟨k, ?_, ?_⟩
          · exact hk.trans (by rw [List.length_append]; exact Nat.le_add_right _ _)
          · rw [List.take_append_of_le_length hk]
            exact heq
        · simp only [List.mem_singleton] at h'
          subst h'
          refine ⟨_, le_refl _, ?_⟩
          rw [List.take_length]
          dsimp only
          rw [h2id, hid]
          simp only [List.map_append, List.sum_append]
          ring
      · intro r hr
        rw [List.getLast?_concat] at hr
        injection hr with hr
        subst hr
        rfl
  | some buy_signals =>
    dsimp only
    rw [hsig]
    dsimp only
    obtain ⟨h3c, h3s, h3id⟩ := ebs_preserves cfg buy_signals
      (_check_stop_loss cfg (_update_positions_high st.positions price_data current_date)
        price_data st.capital current_date (formatDate current_date)).1 price_data
      (_check_stop_loss cfg (_update_positions_high st.positions price_data current_date)
        price_data st.capital current_date (formatDate current_date)).2.1
      current_date (formatDate current_date) h2c h2s
    by_cases hreb : (cfg.rebalance_weekly && _is_rebalance_day cfg current_date) = true
    · rw [if_pos hreb]
      simp only [Option.getD_some]
      obtain ⟨h4c, h4s, h4id⟩ := reb_preserves cfg
        (_execute_buy_signals cfg buy_signals
          (_check_stop_loss cfg (_update_positions_high st.positions price_data current_date)
            price_data st.capital current_date (formatDate current_date)).1 price_data
          (_check_stop_loss cfg (_update_positions_high st.positions price_data current_date)
            price_data st.capital current_date (formatDate current_date)).2.1
          current_date (formatDate current_date)).1 price_data
        (_execute_buy_signals cfg buy_signals
          (_check_stop_loss cfg (_update_positions_high st.positions price_data current_date)
            price_data st.capital current_date (formatDate current_date)).1 price_data
          (_check_stop_loss cfg (_update_positions_high st.positions price_data current_date)
            price_data st.capital current_date (formatDate current_date)).2.1
          current_date (formatDate current_date)).2.1
        current_date (formatDate current_date) buy_signals h3c h3s hp hr0 hr1
      refine ⟨h4c, h4s, ?_, ?_, ?_, ?_⟩
      · dsimp only
        rw [h4id, h3id, h2id, hid]
        simp only [List.map_append, List.sum_append]
        ring
      · intro r hr
        rcases List.mem_append.mp hr with h' | h'
        · exact hhist r h'
        · simp only [List.mem_singleton] at h'
          subst h'
          exact h4c
      · intro r hr
        rcases List.mem_append.mp hr with h' | h'
        · obtain ⟨k, hk, heq⟩ := hsnap r h'
          refine ⟨k, ?_, ?_⟩
          · exact hk.trans (by rw [List.length_append]; exact Nat.le_add_right _ _)
          · rw [List.take_append_of_le_length hk]
            exact heq
        · simp only [List.mem_singleton] at h'
          subst h'
          refine ⟨_, le_refl _, ?_⟩
          rw [List.take_length]
          dsimp only
          rw [h4id, h3id, h2id, hid]
          simp only [List.map_append, List.sum_append]
          ring
      · intro r hr
        rw [List.getLast?_concat] at hr
        injection hr with hr
        subst hr
        rfl
    · rw [if_neg hreb]
      refine ⟨h3c, h3s, ?_, ?_, ?_, ?_⟩
      · dsimp only
        rw [h3id, h2id, hid]
        simp only [List.map_append, List.sum_append]
        ring
      · intro r hr
        rcases List.mem_append.mp hr with h' | h'
        · exact hhist r h'
        · simp only [List.mem_singleton] at h'
          subst h'
          exact h3c
      · intro r hr
        rcases List.mem_append.mp hr with h' | h'
        · obtain ⟨k, hk, heq⟩ := hsnap r h'
          refine ⟨k, ?_, ?_⟩
          · exact hk.trans (by rw [List.length_append]; exact Nat.le_add_right _ _)
          · rw [List.take_append_of_le_length hk]
            exact heq
        · simp only [List.mem_singleton] at h'
          subst h'
          refine ⟨_, le_refl _, ?_⟩
          rw [List.take_length]
          dsimp only
          rw [h3id, h2id, hid]
          simp only [List.map_append, List.sum_append]
          ring
      · intro r hr
        rw [List.getLast?_concat] at hr
        injection hr with hr
        subst hr
        rfl

/-- C9 (amended): cash starts at the initial capital and is mutated only by
trade settlement: every recorded snapshot's cash equals the initial capital
plus the signed settlement sum of a prefix of the trade history (the trades
recorded so far), and the last snapshot's cash equals the initial capital
plus the settlement sum of all recorded trades; provided the commission rate
lies in [0, 1] (the bound the claim omitted) with non-negative initial
capital and non-negative prices, cash never goes negative in any recorded
snapshot; and a prospective BUY whose lot-rounded total cost including
commission exceeds current cash is rejected entirely — the per-candidate
entry step returns the positions, cash and trade list unchanged. -/
theorem C9_cash_conservation (cfg : Config) (signals : Signals) (price_data : PriceData)
    (start_date end_date : Option String) (out : RunOutput)
    (hrun : run_backtest cfg signals price_data start_date end_date = .ok out)
    (hic : 0 ≤ cfg.initial_capital) (hr0 : 0 ≤ cfg.commission_rate)
    (hr1 : cfg.commission_rate ≤ 1) (hp : pricesNonneg price_data) :
    (∀ r ∈ out.portfolio_history, 0 ≤ r.cash) ∧
    (∀ r ∈ out.portfolio_history, ∃ k, k ≤ out.trade_history.length ∧
      r.cash = cfg.initial_capital +
        ((out.trade_history.take k).map settlementDelta).sum) ∧
    (∀ r, out.portfolio_history.getLast? = some r →
      r.cash = cfg.initial_capital + (out.trade_history.map settlementDelta).sum) ∧
    (∀ (n : Nat) (st : Positions × ℚ × List Trade) (sig : Sig) (d : Date) (ds : String)
        (price : ℚ) (shares : Int),
      closeOn price_data sig.code d = some price →
      shares = ⌊(min (if 0 < n then st.2.1 / (n : ℚ) else 0) (st.2.1 * 0.2)) /
        (price * 100)⌋ * 100 →
      st.2.1 < price * (shares : ℚ) + price * (shares : ℚ) * cfg.commission_rate →
      buyStep cfg price_data d ds n st sig = st) := by
  have hreject : ∀ (n : Nat) (st : Positions × ℚ × List Trade) (sig : Sig) (d : Date)
      (ds : String) (price : ℚ) (shares : Int),
      closeOn price_data sig.code d = some price →
      shares = ⌊(min (if 0 < n then st.2.1 / (n : ℚ) else 0) (st.2.1 * 0.2)) /
        (price * 100)⌋ * 100 →
      st.2.1 < price * (shares : ℚ) + price * (shares : ℚ) * cfg.commission_rate →
      buyStep cfg price_data d ds n st sig = st := by
    intro n st sig d ds price shares hclose hshares hlt
    unfold buyStep
    by_cases hh : heldIn st.1 sig.code = true
    · rw [if_pos hh]
    · rw [if_neg hh, hclose]
      dsimp only
      rw [← hshares]
      by_cases hsh : shares ≤ 0
      · rw [if_pos hsh]
      · rw [if_neg hsh, if_pos hlt]
  unfold run_backtest at hrun
  cases hdates : _get_all_trading_dates signals price_data start_date end_date with
  | error e => rw [hdates] at hrun; exact absurd hrun (by simp)
  | ok all_dates =>
    rw [hdates] at hrun
    cases all_dates with
    | nil => simp at hrun
    | cons d0 rest =>
      simp only at hrun
      injection hrun with hout
      have hP := foldl_preserve_mem
        (fun s : EngineState => 0 ≤ s.capital ∧ sharesNonneg s.positions ∧
          s.capital = cfg.initial_capital + (s.trade_history.map settlementDelta).sum ∧
          (∀ r ∈ s.portfolio_history, 0 ≤ r.cash) ∧
          (∀ r ∈ s.portfolio_history, ∃ k, k ≤ s.trade_history.length ∧
            r.cash = cfg.initial_capital +
              ((s.trade_history.take k).map settlementDelta).sum) ∧
          (∀ r, s.portfolio_history.getLast? = some r → r.cash = s.capital))
        (runDay cfg signals price_data) (d0 :: rest)
        (fun s a _ hPs => runDay_preserves cfg signals price_data hp hr0 hr1 s a hPs)
        ⟨[], cfg.initial_capital, [], []⟩
        ⟨hic, fun cp hcp => absurd hcp (List.not_mem_nil cp), by simp,
         fun r hr => absurd hr (List.not_mem_nil r),
         fun r hr => absurd hr (List.not_mem_nil r), fun r hr => by simp at hr⟩
      obtain ⟨_, _, hfid, hfhist, hfsnap, hflast⟩ := hP
      subst hout
      refine ⟨hfhist, hfsnap, ?_, hreject⟩
      intro r hr
      rw [hflast r hr, hfid]

theorem C9_cash_conservation_witness :
    (run_backtest cfgPlain sigOneBuy pdOneBuy none none = .ok outOneBuy ∧
      0 ≤ cfgPlain.initial_capital ∧ 0 ≤ cfgPlain.commission_rate ∧
      cfgPlain.commission_rate ≤ 1 ∧ pricesNonneg pdOneBuy) ∧
    ((∀ r ∈ outOneBuy.portfolio_history, 0 ≤ r.cash) ∧
      (∀ r ∈ outOneBuy.portfolio_history, ∃ k, k ≤ outOneBuy.trade_history.length ∧
        r.cash = cfgPlain.initial_capital +
          ((outOneBuy.trade_history.take k).map settlementDelta).sum) ∧
      (∀ r, outOneBuy.portfolio_history.getLast? = some r →
        r.cash = cfgPlain.initial_capital +
          (outOneBuy.trade_history.map settlementDelta).sum) ∧
      (∀ (n : Nat) (st : Positions × ℚ × List Trade) (sig : Sig) (d : Date) (ds : String)
          (price : ℚ) (shares : Int),
        closeOn pdOneBuy sig.code d = some price →
        shares = ⌊(min (if 0 < n then st.2.1 / (n : ℚ) else 0) (st.2.1 * 0.2)) /
          (price * 100)⌋ * 100 →
        st.2.1 < price * (shares : ℚ) + price * (shares : ℚ) * cfgPlain.commission_rate →
        buyStep cfgPlain pdOneBuy d ds n st sig = st)) := by
  have hrun : run_backtest cfgPlain sigOneBuy pdOneBuy none none = .ok outOneBuy := by
    with_unfolding_all rfl
  have hp : pricesNonneg pdOneBuy := by
    intro code series hmem b hb
    have h := List.mem_singleton.mp hmem
    injection h with h1 h2
    injection h2 with h2
    subst h2
    have hb' := List.mem_singleton.mp hb
    subst hb'
    norm_num
  refine ⟨⟨hrun, by norm_num [cfgPlain], by norm_num [cfgPlain], by norm_num [cfgPlain], hp⟩,
    C9_cash_conservation cfgPlain sigOneBuy pdOneBuy none none outOneBuy hrun
      (by norm_num [cfgPlain]) (by norm_num [cfgPlain]) (by norm_num [cfgPlain]) hp⟩

/-- C9 (counterexample): the claim as stated omits any bound on the
commission rate; with rate 4 — accepted by the unvalidated constructor — the
stop-loss sale on 2023-01-03 has negative net proceeds and drives cash to
-570000, even though the initial capital and all prices are non-negative. -/
theorem C9_negative_cash_counterexample :
    pricesNonneg pdDropA ∧ 0 ≤ cfgHighFee.initial_capital ∧
    0 ≤ cfgHighFee.commission_rate ∧
    (run_backtest cfgHighFee sigDropA pdDropA none none).toOption.map
      (fun o => o.portfolio_history.map (fun r => r.cash)) = some [0, -570000] ∧
    ((-570000 : ℚ) < 0) := by
  refine ⟨?_, by norm_num [cfgHighFee], by norm_num [cfgHighFee],
    by with_unfolding_all rfl, by norm_num⟩
  intro code series hmem b hb
  have h := List.mem_singleton.mp hmem
  injection h with h1 h2
  injection h2 with h2
  subst h2
  rcases List.mem_cons.mp hb with rfl | hb'
  · norm_num
  · have hb'' := List.mem_singleton.mp hb'
    subst hb''
    norm_num

/-- C6 (amended): the two-consecutive-Mondays scenario yields exactly this
trade sequence — on each Monday the signalled instrument is first bought by
signal execution, then the rebalance liquidates every holding (including the
same-day purchase) and re-buys the day's signal, for 4 BUY and 3 SELL trades
in total. -/
theorem C6_two_mondays_sequence :
    (run_backtest cfgRebalMon sigTwoMon pdTwoMon none none).toOption.map
      (fun o => o.trade_history.map (fun t => (t.date, t.code, t.action))) =
    some [("2023-01-02", "AAA", TAction.buy), ("2023-01-02", "AAA", TAction.sell),
          ("2023-01-02", "AAA", TAction.buy), ("2023-01-09", "BBB", TAction.buy),
          ("2023-01-09", "AAA", TAction.sell), ("2023-01-09", "BBB", TAction.sell),
          ("2023-01-09", "BBB", TAction.buy)] := by
  with_unfolding_all rfl

end CVBacktest
